import Mathlib

/-!
Verification of the portable-incubator control core against its
natural-language specification.

The Python sources are shallowly embedded: Python floats are modelled as
rationals (`ℚ`), fallible conversions as sum types, relays as explicit
commanded-state fields plus emitted command lists, and the `asyncio`
control loops as explicit step functions on state records.
-/

/-- A value passed to a Python setter and run through `float(new_setpoint)`:
either a finite number (the conversion succeeds) or a value on which
`float()` raises `ValueError`. -/
inductive PyFloatArg where
  | num (q : ℚ)
  | nonNumeric
deriving Repr

/-- A command issued to a `RelayOutput` (`relay.on()` / `relay.off()`). -/
inductive RelayCmd where
  | on
  | off
deriving DecidableEq, Repr

/-! ## Temperature loop: setpoint setter (`TemperatureLoop.setpoint`, temperature.py 182-189)

The Python setter is
```
try:
    self.pid.setpoint = float(new_setpoint)
except ValueError:
    print(...)
```
It stores any value that `float()` accepts; there is no bounds check. -/

/-- Embeds `TemperatureLoop.setpoint.setter`: given the currently stored
setpoint and the argument, returns the stored setpoint afterwards. -/
def TemperatureLoop.setSetpoint (current : ℚ) (arg : PyFloatArg) : ℚ :=
  match arg with
  | .num q => q
  | .nonNumeric => current

/-! ## Humidity loop: setpoint setter (`HumidityLoop.setpoint`, humidity.py 152-166) -/

/-- The humidity-loop fields touched by the setpoint setter. -/
structure HumidityCfg where
  setpoint : ℚ
  hysteresis : ℚ
  turnOnThreshold : ℚ
  turnOffThreshold : ℚ
deriving DecidableEq, Repr

/-- Embeds `HumidityLoop.setpoint.setter`: validates `0 <= value <= 100`
and on success stores the setpoint and recomputes both thresholds;
otherwise (out of range, or `float()` raising) leaves every field as it was. -/
def HumidityLoop.setSetpoint (s : HumidityCfg) (arg : PyFloatArg) : HumidityCfg :=
  match arg with
  | .num q =>
      if 0 ≤ q ∧ q ≤ 100 then
        { s with
          setpoint := q
          turnOnThreshold := q - s.hysteresis / 2
          turnOffThreshold := q + s.hysteresis / 2 }
      else s
  | .nonNumeric => s

/-! ## `_ensure_actuator_off` for the temperature and humidity loops
(temperature.py 99-117, humidity.py 113-130)

Both methods branch on the tracked on-flag but call `relay.off()` in both
branches; the temperature variant additionally resets the PID in the
first branch. The relay objects are always present in the manager-built
loops, so the `if self.heater_relay` guards are modelled as true. -/

/-- Internal memory of the `simple_pid` controller that `PID.reset()` clears. -/
structure PidMem where
  integral : ℚ
  lastInput : Option ℚ
  lastOutput : Option ℚ
deriving DecidableEq, Repr

/-- Embeds `simple_pid.PID.reset()`. -/
def PID.reset (_p : PidMem) : PidMem :=
  { integral := 0, lastInput := none, lastOutput := none }

/-- State of `TemperatureLoop` touched by `_ensure_actuator_off`:
the tracked `_heater_on` flag, the PID memory, and the commanded relay state. -/
structure TempLoopState where
  heaterOn : Bool
  pid : PidMem
  relayOn : Bool
deriving DecidableEq, Repr

/-- Embeds `TemperatureLoop._ensure_actuator_off` (temperature.py 99-117).
Returns the new loop state and the relay commands issued, in order. -/
def TemperatureLoop.ensureActuatorOff (s : TempLoopState) : TempLoopState × List RelayCmd :=
  if s.heaterOn then
    ({ heaterOn := false, pid := PID.reset s.pid, relayOn := false }, [RelayCmd.off])
  else
    ({ s with relayOn := false }, [RelayCmd.off])

/-- State of `HumidityLoop` touched by `_ensure_actuator_off`. -/
structure HumLoopState where
  humidifierOn : Bool
  relayOn : Bool
deriving DecidableEq, Repr

/-- Embeds `HumidityLoop._ensure_actuator_off` (humidity.py 113-130). -/
def HumidityLoop.ensureActuatorOff (s : HumLoopState) : HumLoopState × List RelayCmd :=
  if s.humidifierOn then
    ({ humidifierOn := false, relayOn := false }, [RelayCmd.off])
  else
    ({ s with relayOn := false }, [RelayCmd.off])

/-! ## Theorems for C4, C8, C10 -/

/-- **C4, counterexample.** The claim says an out-of-bounds temperature
setpoint (outside the configured range, e.g. 0-80 °C) is rejected with the
prior setpoint retained. The source setter has no bounds check: writing
1000 over a prior setpoint of 37 stores 1000. -/
theorem c4_out_of_bounds_accepted :
    TemperatureLoop.setSetpoint 37 (PyFloatArg.num 1000) = 1000 ∧
    ¬ ((1000 : ℚ) ≤ 80) ∧
    TemperatureLoop.setSetpoint 37 (PyFloatArg.num 1000) ≠ 37 := by
  refine ⟨rfl, by norm_num, by norm_num [TemperatureLoop.setSetpoint]⟩

/-- **C4, amended.** The temperature setpoint setter performs no range
validation: every numeric value is stored as the new setpoint, and only an
argument on which `float()` raises `ValueError` is rejected with the prior
setpoint retained. -/
theorem c4_temp_setpoint_no_validation (current : ℚ) :
    (∀ q : ℚ, TemperatureLoop.setSetpoint current (PyFloatArg.num q) = q) ∧
    TemperatureLoop.setSetpoint current PyFloatArg.nonNumeric = current := by
  exact ⟨fun _ => rfl, rfl⟩

/-- **C8.** Setting the humidity setpoint to `S` with `0 ≤ S ≤ 100` stores
`S` and recomputes, in the same update, the ON threshold to `S - H/2` and
the OFF threshold to `S + H/2` (`H` the configured hysteresis); any `S`
outside `[0, 100]` leaves the setpoint and both thresholds unchanged. -/
theorem c8_humidity_setpoint_thresholds (s : HumidityCfg) (q : ℚ) :
    (0 ≤ q → q ≤ 100 →
      HumidityLoop.setSetpoint s (PyFloatArg.num q) =
        { setpoint := q
          hysteresis := s.hysteresis
          turnOnThreshold := q - s.hysteresis / 2
          turnOffThreshold := q + s.hysteresis / 2 }) ∧
    (¬ (0 ≤ q ∧ q ≤ 100) →
      HumidityLoop.setSetpoint s (PyFloatArg.num q) = s) := by
  constructor
  · intro h0 h100
    simp [HumidityLoop.setSetpoint, h0, h100]
  · intro h
    simp [HumidityLoop.setSetpoint, h]

/-- **C8, witness.** Setting the setpoint to 60 with hysteresis 4 yields
thresholds 58 and 62; instantiates `c8_humidity_setpoint_thresholds`. -/
theorem c8_humidity_setpoint_thresholds_witness :
    HumidityLoop.setSetpoint
        { setpoint := 50, hysteresis := 4, turnOnThreshold := 48, turnOffThreshold := 52 }
        (PyFloatArg.num 60) =
      { setpoint := 60, hysteresis := 4, turnOnThreshold := 58, turnOffThreshold := 62 } := by
  have h := (c8_humidity_setpoint_thresholds
      { setpoint := 50, hysteresis := 4, turnOnThreshold := 48, turnOffThreshold := 52 } 60).1
      (by norm_num) (by norm_num)
  rw [h]
  norm_num

/-- **C10.** For the temperature and humidity loops, `_ensure_actuator_off`
issues the relay-off command in every state (also when the tracked on-flag
is already false), leaves the tracked flag false, and is idempotent:
applying it twice gives the same loop state and the same relay command as
applying it once. -/
theorem c10_ensure_actuator_off_idempotent (t : TempLoopState) (h : HumLoopState) :
    (TemperatureLoop.ensureActuatorOff t).2 = [RelayCmd.off] ∧
    (TemperatureLoop.ensureActuatorOff t).1.heaterOn = false ∧
    (TemperatureLoop.ensureActuatorOff t).1.relayOn = false ∧
    TemperatureLoop.ensureActuatorOff (TemperatureLoop.ensureActuatorOff t).1 =
      TemperatureLoop.ensureActuatorOff t ∧
    (HumidityLoop.ensureActuatorOff h).2 = [RelayCmd.off] ∧
    (HumidityLoop.ensureActuatorOff h).1.humidifierOn = false ∧
    (HumidityLoop.ensureActuatorOff h).1.relayOn = false ∧
    HumidityLoop.ensureActuatorOff (HumidityLoop.ensureActuatorOff h).1 =
      HumidityLoop.ensureActuatorOff h := by
  unfold TemperatureLoop.ensureActuatorOff HumidityLoop.ensureActuatorOff
  by_cases ht : t.heaterOn <;> by_cases hh : h.humidifierOn <;>
    simp [ht, hh]

/-! ## BaseLoop gate and per-tick skeleton (base_loop.py 34-47, 86-127)

`_active()` is `manager.incubator_running and getattr(manager, enabled_attr)`.
One iteration of the `while` body in `BaseLoop.run` is modelled as a
function of the loop state. Between the gate check at the top of the
iteration and the re-check guarding `control_step` there is no `await`,
so under the single-threaded asyncio scheduling both checks observe the
same gate value (`gStart`); `control_step` awaits, so the post-step
re-check may observe a different value (`gAfter`). Exceptions from
`control_step` are not modelled (the claim is about the gate logic). -/

/-- The two flags whose conjunction is the gate of a loop. -/
structure GateFlags where
  incubatorRunning : Bool
  loopEnabled : Bool
deriving DecidableEq, Repr

/-- Embeds `BaseLoop._active` for a loop whose `enabled_attr` exists on the
manager (all five manager-built loops). -/
def BaseLoop.active (g : GateFlags) : Bool :=
  g.incubatorRunning && g.loopEnabled

/-- Embeds one iteration of the `while self._is_running` body of
`BaseLoop.run` (base_loop.py 86-103), up to the interval sleep.
`step` and `ensureOff` are the subclass hooks; `gStart` is the gate
observed by the checks on lines 87 and 94 (no suspension point between
them), `gAfter` the gate observed by the re-check on line 101 after
`control_step` ran. Returns the loop state after the iteration and
whether `control_step` ran. -/
def BaseLoop.tick {σ : Type} (step : σ → σ) (ensureOff : σ → σ)
    (gStart gAfter : GateFlags) (s : σ) : σ × Bool :=
  if ¬ (BaseLoop.active gStart = true) then
    (ensureOff s, false)
  else
    let s1 := if BaseLoop.active gStart = true then step s else s
    let s2 := if ¬ (BaseLoop.active gAfter = true) then ensureOff s1 else s1
    (s2, BaseLoop.active gStart)

/-- **C3.** On every tick: if the gate (`incubator_running AND enabled`)
is closed at the start, the loop runs `ensure_actuator_off` and not
`control_step`; if the gate is open, `control_step` runs and the gate is
re-checked afterwards, with `ensure_actuator_off` run whenever the gate
closed during the step. Consequently, for any `ensure_actuator_off` that
leaves the actuator de-energized, the actuator is off at the end of every
tick whose final gate check is closed: a disable request issued mid-step
cannot leave an actuator energized. -/
theorem c3_baseloop_gate (σ : Type) (step ensureOff : σ → σ) (actOn : σ → Bool)
    (hoff : ∀ s, actOn (ensureOff s) = false)
    (gStart gAfter : GateFlags) (s : σ) :
    (BaseLoop.active gStart = false →
      BaseLoop.tick step ensureOff gStart gAfter s = (ensureOff s, false)) ∧
    (BaseLoop.active gStart = true →
      (BaseLoop.tick step ensureOff gStart gAfter s).2 = true ∧
      (BaseLoop.tick step ensureOff gStart gAfter s).1 =
        (if BaseLoop.active gAfter = true then step s else ensureOff (step s))) ∧
    (BaseLoop.active gAfter = false →
      actOn (BaseLoop.tick step ensureOff gStart gAfter s).1 = false) := by
  refine ⟨?_, ?_, ?_⟩
  · intro hg; simp [BaseLoop.tick, hg]
  · intro hg
    constructor
    · simp [BaseLoop.tick, hg]
    · by_cases ha : BaseLoop.active gAfter = true <;> simp [BaseLoop.tick, hg, ha]
  · intro ha
    by_cases hg : BaseLoop.active gStart = true <;>
      simp [BaseLoop.tick, hg, ha, hoff]

/-- **C3, witness.** Instantiates `c3_baseloop_gate` on the humidity loop
state with a step that energizes the humidifier and a gate that closes
mid-step: the tick ends with the actuator off. -/
theorem c3_baseloop_gate_witness :
    (fun st : HumLoopState => st.relayOn)
      (BaseLoop.tick (fun _ => ⟨true, true⟩) (fun st => (HumidityLoop.ensureActuatorOff st).1)
        ⟨true, true⟩ ⟨true, false⟩ ⟨false, false⟩).1 = false := by
  exact (c3_baseloop_gate HumLoopState (fun _ => ⟨true, true⟩)
    (fun st => (HumidityLoop.ensureActuatorOff st).1) (fun st => st.relayOn)
    (fun st => by simp [HumidityLoop.ensureActuatorOff]; by_cases h : st.humidifierOn <;> simp [h])
    ⟨true, true⟩ ⟨true, false⟩ ⟨false, false⟩).2.2 (by rfl)

/-! ## O2 loop (o2.py 104-154, 196-209)

`control_step` reads the sensor (`self.current_value` is a float or the
string `"NC"`), then: on `"NC"` runs `_ensure_actuator_off`; otherwise if
the reading is strictly above the setpoint and `_last_activation_time` is
unset or at least 60 s old (`time.monotonic()` based), it pulses the argon
valve (`on()`, 0.1 s sleep, `off()`), leaves `_argon_valve_on = True`
(the assignment back to `False` is commented out in the source) and
records `_last_activation_time = current_time`; else if the reading is at
or below the setpoint while `_argon_valve_on`, it turns the valve off. -/

/-- `self.current_value`: a float reading or the `"NC"` marker. -/
inductive O2Reading where
  | nc
  | val (q : ℚ)
deriving DecidableEq, Repr

/-- O2-loop state touched by `control_step`: the tracked `_argon_valve_on`
flag and `_last_activation_time` (`None` before the first pulse). -/
structure O2State where
  valveOn : Bool
  lastActivation : Option ℚ
deriving DecidableEq, Repr

/-- Embeds `O2Loop._ensure_actuator_off` (o2.py 149-154): turns the relay
off only when the tracked flag says the valve was on. -/
def O2Loop.ensureActuatorOff (s : O2State) : O2State × List RelayCmd :=
  if s.valveOn then ({ s with valveOn := false }, [RelayCmd.off])
  else (s, [])

/-- The cooldown test on o2.py line 134:
`last_activation_time is None or current_time - last_activation_time >= 60`. -/
def o2CooldownElapsed (last : Option ℚ) (now : ℚ) : Bool :=
  match last with
  | none => true
  | some t => decide (60 ≤ now - t)

/-- Result of one O2 `control_step`: the state afterwards, whether an
argon pulse was issued, and the commands sent to the argon valve relay. -/
structure O2StepResult where
  state : O2State
  pulsed : Bool
  relayCmds : List RelayCmd
deriving DecidableEq, Repr

/-- Embeds `O2Loop.control_step` (o2.py 104-147) for the manager-built
loop (argon relay present). `now` is the `time.monotonic()` value read at
the top of the step. -/
def O2Loop.controlStep (sp : ℚ) (s : O2State) (reading : O2Reading) (now : ℚ) :
    O2StepResult :=
  match reading with
  | .nc =>
      let eo := O2Loop.ensureActuatorOff s
      ⟨eo.1, false, eo.2⟩
  | .val r =>
      let shouldBeOn := decide (sp < r)
      if shouldBeOn && o2CooldownElapsed s.lastActivation now then
        -- on(), _argon_valve_on = True, sleep 0.1, off(); the flag is left True
        ⟨{ valveOn := true, lastActivation := some now }, true, [RelayCmd.on, RelayCmd.off]⟩
      else if !shouldBeOn && s.valveOn then
        ⟨{ s with valveOn := false }, false, [RelayCmd.off]⟩
      else ⟨s, false, []⟩

/-- Embeds the `argon_valve_on` field of `O2Loop.get_status`
(o2.py 196-209), i.e. the `argon_valve_is_on` property: it reports the
tracked `_argon_valve_on` flag. -/
def O2Loop.statusArgonValveOn (s : O2State) : Bool :=
  s.valveOn

/-- The `time.monotonic()` instants at which `O2Loop.control_step` issued
an argon pulse, over a run fed the given (reading, monotonic time) inputs. -/
def o2PulseTimes (sp : ℚ) : O2State → List (O2Reading × ℚ) → List ℚ
  | _, [] => []
  | s, (r, t) :: rest =>
      let res := O2Loop.controlStep sp s r t
      if res.pulsed then t :: o2PulseTimes sp res.state rest
      else o2PulseTimes sp res.state rest

/-- A step that issues no pulse does not move `_last_activation_time`. -/
theorem o2_no_pulse_keeps_lastActivation (sp : ℚ) (s : O2State) (r : O2Reading) (now : ℚ)
    (h : (O2Loop.controlStep sp s r now).pulsed = false) :
    (O2Loop.controlStep sp s r now).state.lastActivation = s.lastActivation := by
  cases r with
  | nc =>
      simp only [O2Loop.controlStep, O2Loop.ensureActuatorOff]
      by_cases hv : s.valveOn <;> simp [hv]
  | val q =>
      by_cases hc : (decide (sp < q) && o2CooldownElapsed s.lastActivation now) = true
      · simp [O2Loop.controlStep, hc] at h
      · by_cases hb : (!decide (sp < q) && s.valveOn) = true <;>
          simp [O2Loop.controlStep, hc, hb]

/-- A pulse step records the pulse time and was allowed by the cooldown. -/
theorem o2_pulse_facts (sp : ℚ) (s : O2State) (r : O2Reading) (now : ℚ)
    (h : (O2Loop.controlStep sp s r now).pulsed = true) :
    (O2Loop.controlStep sp s r now).state.lastActivation = some now ∧
    (∀ t0 : ℚ, s.lastActivation = some t0 → t0 + 60 ≤ now) ∧
    ∃ q : ℚ, r = O2Reading.val q ∧ sp < q := by
  cases r with
  | nc =>
      exfalso
      simp only [O2Loop.controlStep, O2Loop.ensureActuatorOff] at h
      by_cases hv : s.valveOn <;> simp [hv] at h
  | val q =>
      by_cases hc : (decide (sp < q) && o2CooldownElapsed s.lastActivation now) = true
      · refine ⟨by simp [O2Loop.controlStep, hc], ?_, q, rfl, ?_⟩
        · intro t0 ht0
          have h2 := (Bool.and_eq_true _ _).mp hc |>.2
          rw [ht0] at h2
          simp only [o2CooldownElapsed, decide_eq_true_eq] at h2
          linarith
        · have h1 := (Bool.and_eq_true _ _).mp hc |>.1
          exact of_decide_eq_true h1
      · exfalso
        by_cases hb : (!decide (sp < q) && s.valveOn) = true <;>
          simp [O2Loop.controlStep, hc, hb] at h

/-- Unfolding equation for `o2PulseTimes` on a cons cell. -/
theorem o2PulseTimes_cons (sp : ℚ) (s : O2State) (r : O2Reading) (tm : ℚ)
    (rest : List (O2Reading × ℚ)) :
    o2PulseTimes sp s ((r, tm) :: rest) =
      if (O2Loop.controlStep sp s r tm).pulsed then
        tm :: o2PulseTimes sp (O2Loop.controlStep sp s r tm).state rest
      else o2PulseTimes sp (O2Loop.controlStep sp s r tm).state rest := rfl

/-- Every pulse time in a run started with `_last_activation_time = t0`
is at least `t0 + 60`. -/
theorem o2PulseTimes_lower (sp : ℚ) :
    ∀ (inputs : List (O2Reading × ℚ)) (s : O2State) (t0 : ℚ),
      s.lastActivation = some t0 →
      ∀ t ∈ o2PulseTimes sp s inputs, t0 + 60 ≤ t := by
  intro inputs
  induction inputs with
  | nil => intro s t0 _ t ht; simp [o2PulseTimes] at ht
  | cons hd rest ih =>
      intro s t0 hlast t ht
      obtain ⟨r, tm⟩ := hd
      rw [o2PulseTimes_cons] at ht
      by_cases hp : (O2Loop.controlStep sp s r tm).pulsed = true
      · have hf := o2_pulse_facts sp s r tm hp
        have hlow : t0 + 60 ≤ tm := hf.2.1 t0 hlast
        rw [if_pos hp] at ht
        rcases List.mem_cons.mp ht with h1 | h2
        · rw [h1]; exact hlow
        · have h3 := ih (O2Loop.controlStep sp s r tm).state tm hf.1 t h2
          linarith
      · have hkeep := o2_no_pulse_keeps_lastActivation sp s r tm (by
          exact Bool.not_eq_true _ ▸ eq_false_of_ne_true hp)
        rw [if_neg hp] at ht
        exact ih (O2Loop.controlStep sp s r tm).state t0 (hkeep.trans hlast) t ht

/-- Successive argon pulses are separated by at least the 60 s cooldown. -/
theorem o2PulseTimes_pairwise (sp : ℚ) :
    ∀ (inputs : List (O2Reading × ℚ)) (s : O2State),
      List.Pairwise (fun a b => a + 60 ≤ b) (o2PulseTimes sp s inputs) := by
  intro inputs
  induction inputs with
  | nil => intro s; simp [o2PulseTimes]
  | cons hd rest ih =>
      intro s
      obtain ⟨r, tm⟩ := hd
      rw [o2PulseTimes_cons]
      by_cases hp : (O2Loop.controlStep sp s r tm).pulsed = true
      · have hf := o2_pulse_facts sp s r tm hp
        rw [if_pos hp]
        exact List.pairwise_cons.mpr
          ⟨fun t ht => o2PulseTimes_lower sp rest _ tm hf.1 t ht, ih _⟩
      · rw [if_neg hp]
        exact ih _

/-- A list whose entries are pairwise at least 60 apart has at most one
entry in any half-open window `[a, a + 60)`. -/
theorem pairwise_gap_window (l : List ℚ)
    (hp : List.Pairwise (fun a b => a + 60 ≤ b) l) (a : ℚ) :
    (l.filter (fun t => decide (a ≤ t) && decide (t < a + 60))).length ≤ 1 := by
  rcases hq : l.filter (fun t => decide (a ≤ t) && decide (t < a + 60)) with
    _ | ⟨x, _ | ⟨y, rest⟩⟩
  · simp [hq]
  · simp [hq]
  · exfalso
    have hpf := hp.filter (fun t => decide (a ≤ t) && decide (t < a + 60))
    rw [hq] at hpf
    have hxy : x + 60 ≤ y := (List.pairwise_cons.mp hpf).1 y (by simp)
    have hx : x ∈ l.filter (fun t => decide (a ≤ t) && decide (t < a + 60)) := by
      rw [hq]; simp
    have hy : y ∈ l.filter (fun t => decide (a ≤ t) && decide (t < a + 60)) := by
      rw [hq]; simp
    have hxp := (List.mem_filter.mp hx).2
    have hyp := (List.mem_filter.mp hy).2
    simp only [Bool.and_eq_true, decide_eq_true_eq] at hxp hyp
    linarith [hxp.1, hyp.2]

/-- **C7.** An O2 `control_step` issues an argon pulse only when the
reading is a valid number strictly above the setpoint and the 60 s
cooldown since `_last_activation_time` has elapsed (or no actuation has
happened yet); consequently, over any run, consecutive recorded pulse
times are at least 60 s apart and any half-open 60 s window contains at
most one pulse. -/
theorem c7_o2_pulse_only_after_cooldown (sp : ℚ) (s : O2State)
    (inputs : List (O2Reading × ℚ)) :
    (∀ (st : O2State) (r : O2Reading) (now : ℚ),
      (O2Loop.controlStep sp st r now).pulsed = true →
      ∃ q : ℚ, r = O2Reading.val q ∧ sp < q ∧
        (st.lastActivation = none ∨
          ∃ t0 : ℚ, st.lastActivation = some t0 ∧ t0 + 60 ≤ now)) ∧
    List.Pairwise (fun a b => a + 60 ≤ b) (o2PulseTimes sp s inputs) ∧
    (∀ a : ℚ, ((o2PulseTimes sp s inputs).filter
      (fun t => decide (a ≤ t) && decide (t < a + 60))).length ≤ 1) := by
  refine ⟨?_, o2PulseTimes_pairwise sp inputs s,
    fun a => pairwise_gap_window _ (o2PulseTimes_pairwise sp inputs s) a⟩
  intro st r now hpulse
  obtain ⟨hrec, hcool, q, hq, hlt⟩ := o2_pulse_facts sp st r now hpulse
  refine ⟨q, hq, hlt, ?_⟩
  cases hl : st.lastActivation with
  | none => exact Or.inl rfl
  | some t0 => exact Or.inr ⟨t0, rfl, hcool t0 hl⟩

/-- **C7, witness.** Scenario S4 of the spec: setpoint 5, readings 6.0 at
monotonic times 0, 1, 59, 60 from a fresh loop; the pulse times are
0 and 60, and `c7_o2_pulse_only_after_cooldown` bounds any 60 s window to
one pulse. -/
theorem c7_o2_pulse_only_after_cooldown_witness :
    o2PulseTimes 5 ⟨false, none⟩
        [(O2Reading.val 6, 0), (O2Reading.val 6, 1),
         (O2Reading.val 6, 59), (O2Reading.val 6, 60)] = [0, 60] ∧
    ((o2PulseTimes 5 ⟨false, none⟩
        [(O2Reading.val 6, 0), (O2Reading.val 6, 1),
         (O2Reading.val 6, 59), (O2Reading.val 6, 60)]).filter
      (fun t => decide ((0 : ℚ) ≤ t) && decide (t < 0 + 60))).length ≤ 1 := by
  constructor
  · norm_num [o2PulseTimes_cons, o2PulseTimes, O2Loop.controlStep,
      O2Loop.ensureActuatorOff, o2CooldownElapsed]
  · exact (c7_o2_pulse_only_after_cooldown 5 ⟨false, none⟩
      [(O2Reading.val 6, 0), (O2Reading.val 6, 1),
       (O2Reading.val 6, 59), (O2Reading.val 6, 60)]).2.2 0

/-- **C9.** After `O2Loop.control_step` issues an argon pulse (valid
reading strictly above the setpoint, cooldown elapsed), the relay command
sequence of the step ends with OFF, yet the tracked `_argon_valve_on` flag
is left `True`, so `get_status` reports `argon_valve_on = True`; the flag
stays `True` across later steps whose valid reading is above the setpoint,
and is cleared by a later step observing a valid reading at or below the
setpoint or by `_ensure_actuator_off`. -/
theorem c9_o2_flag_left_true (sp q now : ℚ) (s : O2State)
    (hq : sp < q) (hcd : o2CooldownElapsed s.lastActivation now = true) :
    (O2Loop.controlStep sp s (O2Reading.val q) now).pulsed = true ∧
    (O2Loop.controlStep sp s (O2Reading.val q) now).relayCmds =
      [RelayCmd.on, RelayCmd.off] ∧
    (O2Loop.controlStep sp s (O2Reading.val q) now).state.valveOn = true ∧
    O2Loop.statusArgonValveOn (O2Loop.controlStep sp s (O2Reading.val q) now).state = true ∧
    (∀ q2 now2 : ℚ, sp < q2 →
      (O2Loop.controlStep sp (O2Loop.controlStep sp s (O2Reading.val q) now).state
        (O2Reading.val q2) now2).state.valveOn = true) ∧
    (∀ q2 now2 : ℚ, q2 ≤ sp →
      (O2Loop.controlStep sp (O2Loop.controlStep sp s (O2Reading.val q) now).state
        (O2Reading.val q2) now2).state.valveOn = false) ∧
    (O2Loop.ensureActuatorOff
      (O2Loop.controlStep sp s (O2Reading.val q) now).state).1.valveOn = false := by
  have hcond : (decide (sp < q) && o2CooldownElapsed s.lastActivation now) = true := by
    rw [decide_eq_true hq, hcd]; rfl
  have hstep : O2Loop.controlStep sp s (O2Reading.val q) now =
      ⟨{ valveOn := true, lastActivation := some now }, true, [RelayCmd.on, RelayCmd.off]⟩ := by
    simp [O2Loop.controlStep, hcond]
  refine ⟨by rw [hstep], by rw [hstep], by rw [hstep], by rw [hstep]; rfl, ?_, ?_, ?_⟩
  · intro q2 now2 hq2
    rw [hstep]
    by_cases hc2 : o2CooldownElapsed (some now) now2 = true
    · simp [O2Loop.controlStep, hc2, decide_eq_true hq2]
    · simp [O2Loop.controlStep, decide_eq_true hq2,
        Bool.not_eq_true _ ▸ eq_false_of_ne_true hc2]
  · intro q2 now2 hq2
    rw [hstep]
    have : decide (sp < q2) = false := decide_eq_false (not_lt.mpr hq2)
    simp [O2Loop.controlStep, this]
  · rw [hstep]
    simp [O2Loop.ensureActuatorOff]

/-- **C9, witness.** Instantiates `c9_o2_flag_left_true` at setpoint 5,
reading 6 at time 0 from a fresh loop state. -/
theorem c9_o2_flag_left_true_witness :
    (O2Loop.controlStep 5 ⟨false, none⟩ (O2Reading.val 6) 0).state.valveOn = true ∧
    (O2Loop.controlStep 5 ⟨false, none⟩ (O2Reading.val 6) 0).relayCmds =
      [RelayCmd.on, RelayCmd.off] := by
  have h := c9_o2_flag_left_true 5 6 0 ⟨false, none⟩ (by norm_num) (by rfl)
  exact ⟨h.2.2.1, h.2.1⟩

/-! ## CO2 sensor frame parser (`CO2Sensor._parse_ppm`, co2_sensor.py 161-187)

Frames are byte lists (`List Nat`, each entry one byte). A 7-byte frame
starting with `0xFE` is binary: the value is the big-endian word at bytes
3 and 4 and the multiplier is not applied. Any other frame is decoded as
ASCII, every non-digit byte is dropped (`decode('ascii', errors='ignore')`
followed by keeping `ch.isdigit()`; digit bytes are below 0x80, so
filtering the raw bytes is equivalent), the remaining digits are read as a
decimal integer and scaled by the stored multiplier; if no digit remains a
`ValueError` is raised. -/

/-- ASCII digit test on a byte (`'0'` = 48 … `'9'` = 57). -/
def isDigitByte (b : Nat) : Bool :=
  decide (48 ≤ b) && decide (b ≤ 57)

/-- Embeds `CO2Sensor._parse_ppm`. `ValueError` is the `error` case. -/
def CO2Sensor.parsePpm (multiplier : Nat) (raw : List Nat) : Except String Nat :=
  if raw.length = 7 ∧ raw.getD 0 0 = 0xFE then
    Except.ok ((raw.getD 3 0) <<< 8 ||| raw.getD 4 0)
  else
    let digits := raw.filter isDigitByte
    if digits = [] then Except.error ("no digits in reply")
    else Except.ok ((digits.foldl (fun acc d => acc * 10 + (d - 48)) 0) * multiplier)

/-- The bytes of the Python format `"%05d" % P`: the decimal digits of
`P`, zero-padded on the left to at least five characters. -/
def percent05d (P : Nat) : List Nat :=
  let ds := ((Nat.digits 10 P).reverse).map (fun d => d + 48)
  List.replicate (5 - ds.length) 48 ++ ds

/-- The bytes of the ASCII frame `"Z %05d\r\n" % (P)`. -/
def asciiFrameZ (P : Nat) : List Nat :=
  [90, 32] ++ percent05d P ++ [13, 10]

/-- Folding the parser accumulator over ASCII digit bytes recovers the
number the digits spell. -/
theorem foldl_digit_bytes (ds : List Nat) (h : ∀ d ∈ ds, d < 10) (acc : Nat) :
    (ds.map (fun d => d + 48)).foldl (fun a c => a * 10 + (c - 48)) acc
      = Nat.ofDigits 10 ds.reverse + acc * 10 ^ ds.length := by
  induction ds generalizing acc with
  | nil => simp
  | cons d ds ih =>
      have hd : d < 10 := h d (by simp)
      have hds : ∀ x ∈ ds, x < 10 := fun x hx => h x (by simp [hx])
      simp only [List.map_cons, List.foldl_cons, List.reverse_cons, List.length_cons]
      rw [ih hds]
      rw [Nat.ofDigits_append]
      have h48 : d + 48 - 48 = d := by omega
      rw [h48]
      simp [Nat.ofDigits_singleton, List.length_reverse]
      ring

/-- Folding the parser accumulator over leading `'0'` padding multiplies
the accumulator by a power of ten. -/
theorem foldl_zero_padding (k : Nat) (acc : Nat) :
    (List.replicate k 48).foldl (fun a c => a * 10 + (c - 48)) acc = acc * 10 ^ k := by
  induction k generalizing acc with
  | zero => simp
  | succ n ih =>
      rw [List.replicate_succ, List.foldl_cons, ih]
      have : acc * 10 + (48 - 48) = acc * 10 := by omega
      rw [this]
      ring

/-- Every byte of `percent05d P` is an ASCII digit. -/
theorem percent05d_digits (P : Nat) : ∀ b ∈ percent05d P, isDigitByte b = true := by
  intro b hb
  unfold percent05d at hb
  rcases List.mem_append.mp hb with h1 | h2
  · have := List.eq_of_mem_replicate h1
    subst this
    rfl
  · obtain ⟨d, hd, rfl⟩ := List.mem_map.mp h2
    have : d < 10 := Nat.digits_lt_base (by norm_num) (List.mem_reverse.mp hd)
    simp only [isDigitByte, Bool.and_eq_true, decide_eq_true_eq]
    omega

/-- `percent05d` is never empty (it is at least five characters wide). -/
theorem percent05d_ne_nil (P : Nat) : percent05d P ≠ [] := by
  unfold percent05d
  intro hcontra
  have h5 : (5 : Nat) ≤ 5 := le_refl 5
  have hlen := congrArg List.length hcontra
  simp only [List.length_append, List.length_replicate, List.length_nil] at hlen
  omega

/-- The digit fold over `percent05d P` recovers `P`. -/
theorem foldl_percent05d (P : Nat) :
    (percent05d P).foldl (fun a c => a * 10 + (c - 48)) 0 = P := by
  unfold percent05d
  rw [List.foldl_append, foldl_zero_padding]
  rw [foldl_digit_bytes _ (fun d hd => Nat.digits_lt_base (by norm_num) (List.mem_reverse.mp hd))]
  simp [Nat.ofDigits_digits]

/-- **C5.** For every `P ∈ [0, 99999]` and stored multiplier
`M ∈ {1, 10, 100}`, parsing the ASCII frame `"Z %05d\r\n" % (P)` returns
`P * M`; parsing any 7-byte binary frame starting with `0xFE` returns the
big-endian word `(h << 8) | l` at bytes 3 and 4, for every multiplier. -/
theorem c5_co2_parser_round_trip (P M : Nat) (hP : P ≤ 99999)
    (hM : M = 1 ∨ M = 10 ∨ M = 100) :
    CO2Sensor.parsePpm M (asciiFrameZ P) = Except.ok (P * M) ∧
    ∀ (b1 b2 hi lo b5 b6 M2 : Nat),
      CO2Sensor.parsePpm M2 [0xFE, b1, b2, hi, lo, b5, b6] =
        Except.ok (hi <<< 8 ||| lo) := by
  constructor
  · have hhead : (asciiFrameZ P).getD 0 0 = 90 := rfl
    have hnotbin : ¬ ((asciiFrameZ P).length = 7 ∧ (asciiFrameZ P).getD 0 0 = 0xFE) := by
      intro hcontra
      rw [hhead] at hcontra
      omega
    have hfilter : (asciiFrameZ P).filter isDigitByte = percent05d P := by
      unfold asciiFrameZ
      rw [List.filter_append, List.filter_append]
      rw [List.filter_eq_self.mpr (percent05d_digits P)]
      simp [isDigitByte]
    rw [CO2Sensor.parsePpm, if_neg hnotbin]
    simp only [hfilter]
    rw [if_neg (percent05d_ne_nil P)]
    rw [foldl_percent05d]
  · intro b1 b2 hi lo b5 b6 M2
    rw [CO2Sensor.parsePpm, if_pos ⟨rfl, rfl⟩]
    simp [List.getD]

/-- **C5, witness.** Scenario S6 of the spec: the ASCII frame for 473
with multiplier 10 parses to 4730, and the binary frame
`[0xFE, 0, 0, 0x01, 0xD9, 0, 0]` parses to 473; instantiates
`c5_co2_parser_round_trip`. -/
theorem c5_co2_parser_round_trip_witness :
    CO2Sensor.parsePpm 10 (asciiFrameZ 473) = Except.ok 4730 ∧
    CO2Sensor.parsePpm 1 [0xFE, 0, 0, 0x01, 0xD9, 0, 0] = Except.ok 473 := by
  have h := c5_co2_parser_round_trip 473 10 (by norm_num) (Or.inr (Or.inl rfl))
  refine ⟨h.1, ?_⟩
  have h2 := h.2 0 0 0x01 0xD9 0 0 1
  rw [h2]
  exact congrArg Except.ok (by decide)

/-! ## CO2 loop control step (`CO2Loop.control_step`, co2.py 83-211)

Model of the hardware path (both the primary vent relay and the secondary
relay initialised, as in the manager-built loop). The reading is `none`
when the sensor read raised or returned an invalid value, `some r` for a
valid number. `now` is the `time.monotonic()` value read at the top of
the step; the second `time.monotonic()` call inside the max-duration
branch is modelled by the same tick instant. In this hardware path
nothing ever sets `self.vent_active` to `True` (only the simulation path
without a relay does), which the invariant below makes explicit. -/

/-- CO2-loop state touched by `control_step`: `vent_active`,
`_last_activation_time`, `_vent_start_time`. -/
structure CO2State where
  ventActive : Bool
  lastActivation : Option ℚ
  ventStartTime : Option ℚ
deriving DecidableEq, Repr

/-- Actions of the two CO2 solenoid relays and the awaited delays,
in program order. -/
inductive CO2Event where
  | primaryOn
  | primaryOff
  | secondaryOn
  | secondaryOff
  | sleep (seconds : ℚ)
deriving DecidableEq, Repr

/-- The cooldown test on co2.py line 145:
`last_activation_time is None or current_time - last_activation_time >= 15`. -/
def co2CooldownElapsed (last : Option ℚ) (now : ℚ) : Bool :=
  match last with
  | none => true
  | some t => decide (15 ≤ now - t)

/-- The dual-solenoid injection sequence of co2.py 148-159: primary on,
0.1 s, primary off, 1 s wait, secondary on, 0.1 s, secondary off. -/
def co2PulseSeq : List CO2Event :=
  [CO2Event.primaryOn, CO2Event.sleep (1/10), CO2Event.primaryOff,
   CO2Event.sleep 1, CO2Event.secondaryOn, CO2Event.sleep (1/10),
   CO2Event.secondaryOff]

/-- Embeds `CO2Loop.control_step` (co2.py 83-211) on the hardware path.
Returns the state afterwards and the relay/delay events, in order. -/
def CO2Loop.controlStep (sp : ℚ) (s : CO2State) (reading : Option ℚ) (now : ℚ) :
    CO2State × List CO2Event :=
  match reading with
  | none =>
      -- safety branch on read failure (co2.py 110-117)
      if s.ventActive then
        ({ s with ventActive := false, ventStartTime := none }, [CO2Event.primaryOff])
      else (s, [])
  | some r =>
      if decide (r < sp) then
        if !s.ventActive && co2CooldownElapsed s.lastActivation now then
          ({ s with lastActivation := some now }, co2PulseSeq)
        else
          -- max-duration guard (co2.py 166-172)
          match s.ventStartTime with
          | some t0 =>
              if decide (60 < now - t0) then
                ({ s with ventActive := false, ventStartTime := none },
                  [CO2Event.primaryOff])
              else (s, [])
          | none => (s, [])
      else
        -- co2.py 175-190: `elif self.vent_active: pass` - no action
        (s, [])

/-- **C6.** In the CO2 loop (hardware path), whenever the reading is a
valid number strictly below the setpoint and the 15 s cooldown since the
last actuation has elapsed, the step issues exactly one 0.1 s pulse of
the primary solenoid followed after 1 s by exactly one 0.1 s pulse of the
secondary solenoid and records the actuation timestamp; whenever the
reading is at or above the setpoint, no pulse is issued and the state is
unchanged. `vent_active = False` is invariant along the hardware path,
so the `not self.vent_active` conjunct of the source guard never blocks
a pulse. -/
theorem c6_co2_dual_pulse (sp now r : ℚ) (s : CO2State) (hv : s.ventActive = false) :
    (r < sp → co2CooldownElapsed s.lastActivation now = true →
      CO2Loop.controlStep sp s (some r) now =
        ({ s with lastActivation := some now }, co2PulseSeq)) ∧
    (sp ≤ r → CO2Loop.controlStep sp s (some r) now = (s, [])) ∧
    (∀ reading : Option ℚ, (CO2Loop.controlStep sp s reading now).1.ventActive = false) := by
  refine ⟨?_, ?_, ?_⟩
  · intro hlt hcd
    simp [CO2Loop.controlStep, decide_eq_true hlt, hv, hcd]
  · intro hge
    have : decide (r < sp) = false := decide_eq_false (not_lt.mpr hge)
    simp [CO2Loop.controlStep, this]
  · intro reading
    match reading with
    | none => simp [CO2Loop.controlStep, hv]
    | some r2 =>
        by_cases hlt : r2 < sp
        · by_cases hcd : co2CooldownElapsed s.lastActivation now = true
          · simp [CO2Loop.controlStep, decide_eq_true hlt, hv, hcd]
          · match hvs : s.ventStartTime with
            | some t0 =>
                by_cases hdur : (60 : ℚ) < now - t0 <;>
                  simp [CO2Loop.controlStep, decide_eq_true hlt, hv, hcd, hvs, hdur]
            | none =>
                simp [CO2Loop.controlStep, decide_eq_true hlt, hv, hcd, hvs]
        · have : decide (r2 < sp) = false := decide_eq_false hlt
          simp [CO2Loop.controlStep, this, hv]

/-- **C6, witness.** With setpoint 1000 ppm, reading 900 ppm at time 0
from a fresh loop state, `c6_co2_dual_pulse` yields the dual-solenoid
pulse sequence and records the actuation time. -/
theorem c6_co2_dual_pulse_witness :
    CO2Loop.controlStep 1000 ⟨false, none, none⟩ (some 900) 0 =
      ({ ventActive := false, lastActivation := some 0, ventStartTime := none },
        co2PulseSeq) := by
  exact (c6_co2_dual_pulse 1000 0 900 ⟨false, none, none⟩ rfl).1 (by norm_num) rfl

/-! ## Historian (`DataLogger`, datalogger.py)

`log_data` (lines 100-145) first checks `is_offline()` (lines 22-26) and,
when offline, appends the sample to the local CSV file and returns without
touching the database; only when online does it INSERT into the SQLite
`logs` table. `get_data` (lines 147-185) SELECTs from the `logs` table
with optional `timestamp >= start` / `timestamp <= end` bounds and
`ORDER BY timestamp ASC`. The table is modelled as a list of rows in
insertion order, the CSV file as a list of appended rows, and the
`ORDER BY` clause as a stable sort by timestamp. -/

/-- One historian row: the timestamp key plus the remaining columns. -/
structure SampleRow where
  timestamp : ℚ
  columns : List (Option ℚ)
deriving DecidableEq, Repr

/-- `DataLogger` state: the database table (`none` when the connection is
not initialised) and the rows of the local CSV log. -/
structure LoggerState where
  db : Option (List SampleRow)
  csvLog : List SampleRow
deriving DecidableEq, Repr

/-- Embeds `is_offline` (datalogger.py 22-26): the placeholder always
returns `True` ("For now, always return True to test local logging"). -/
def is_offline : Bool := true

/-- Embeds `DataLogger.log_data` (datalogger.py 100-145): when offline,
append to the local CSV and skip database logging; when online, insert
the row into the database (no-op if the connection is missing). -/
def DataLogger.logData (s : LoggerState) (cols : List (Option ℚ)) (now : ℚ) :
    LoggerState :=
  if is_offline then
    { s with csvLog := s.csvLog ++ [⟨now, cols⟩] }
  else
    match s.db with
    | none => s
    | some rows => { s with db := some (rows ++ [⟨now, cols⟩]) }

/-- The WHERE clause built by `get_data`: `timestamp >= start` and/or
`timestamp <= end`, each only when the bound is given. -/
def sampleInRange (startT endT : Option ℚ) (t : ℚ) : Bool :=
  (match startT with | none => true | some a => decide (a ≤ t)) &&
  (match endT with | none => true | some b => decide (t ≤ b))

/-- Embeds `DataLogger.get_data` (datalogger.py 147-185): empty result
when the connection is missing, otherwise the rows matching the range,
ordered by timestamp ascending. -/
def DataLogger.getData (s : LoggerState) (startT endT : Option ℚ) : List SampleRow :=
  match s.db with
  | none => []
  | some rows =>
      (rows.filter (fun row => sampleInRange startT endT row.timestamp)).mergeSort
        (fun a b => decide (a.timestamp ≤ b.timestamp))

/-- **C2 (code bug).** The claim says a sample whose `log_data` call
returned successfully is returned by a later `get_data` range query over
a range containing its timestamp. Because the `is_offline()` placeholder
always returns `True`, `log_data` appends the sample to the local CSV and
returns before the database insert, so the later range query - which
reads only the database - does not return it: from an initialised empty
historian, logging a sample at t = 5 and querying [0, 10] yields `[]`
while the sample sits in the CSV log and the database is still empty. -/
theorem c2_logged_sample_not_returned :
    is_offline = true ∧
    DataLogger.getData
      (DataLogger.logData ⟨some [], []⟩ [some 37, some 60, some 20, some 1000] 5)
      (some 0) (some 10) = [] ∧
    (DataLogger.logData ⟨some [], []⟩ [some 37, some 60, some 20, some 1000] 5).csvLog =
      [⟨5, [some 37, some 60, some 20, some 1000]⟩] ∧
    (DataLogger.logData ⟨some [], []⟩ [some 37, some 60, some 20, some 1000] 5).db =
      some [] := by
  refine ⟨rfl, ?_, rfl, rfl⟩
  simp [DataLogger.getData, DataLogger.logData, is_offline]

/-! ## Persisted state document (C1)

`ControlManager._save_state` (manager.py 219-244) opens
`app/state.json` directly with mode `'w'` and `json.dump`s the state
dictionary into it; `ControlManager._load_state` (manager.py 246-297)
reads the file, merges the parsed dictionary over the defaults, and on a
missing file or a `json.JSONDecodeError` applies the defaults.

The document is modelled at the byte level (`List Nat`, ASCII). Python
floats in the document are modelled as sign / integer part / fraction
digits (`JNum`), rendered the way `json.dump` renders them
(`-?ddd.ddd`; the exponent forms Python uses for very large or tiny
floats are outside the model, as are JSON value types the state writer
never emits). The JSON reader below is the model of `json.load`
restricted to this flat-object grammar: it accepts exactly the
whitespace-separated `{"key": number-or-bool, ...}` shape and fails on
everything else, in particular on any input with no closing brace. -/

/-- A JSON float literal: optional minus sign, integer part, and the
digits after the decimal point (most significant first). -/
structure JNum where
  neg : Bool
  intNat : Nat
  frac : List Nat
deriving DecidableEq, Repr

/-- A value in the state document: `json.dump` writes the four setpoints
as numbers and the five enable flags plus `incubator_running` as
`true` / `false`. -/
inductive JVal where
  | num (n : JNum)
  | bool (b : Bool)
deriving DecidableEq, Repr

/-- Well-formed float literal: at least one fraction digit and every
fraction entry a single digit. -/
def JNum.canonical (v : JNum) : Prop :=
  v.frac ≠ [] ∧ ∀ d ∈ v.frac, d < 10

/-- Well-formedness of a document value. -/
def JVal.canonical : JVal → Prop
  | .num n => n.canonical
  | .bool _ => True

/-- The rational value of a float literal (used for the setter range
checks that `_apply_state_to_self` routes setpoints through). -/
def JNum.toRat (v : JNum) : ℚ :=
  (if v.neg then -1 else 1) *
    ((v.intNat : ℚ) + (Nat.ofDigits 10 v.frac.reverse : ℚ) / 10 ^ v.frac.length)

/-- Python truthiness of a float (`bool(x)`): nonzero. -/
def JNum.truthy (v : JNum) : Bool :=
  decide (v.toRat ≠ 0)

/-- The decimal digit bytes of a natural number, most significant first
(`"0"` for zero). -/
def natDigitBytes (n : Nat) : List Nat :=
  (if n = 0 then [0] else (Nat.digits 10 n).reverse).map (fun d => d + 48)

/-- The bytes `json.dump` writes for a float literal. -/
def renderJNum (v : JNum) : List Nat :=
  (if v.neg then [45] else []) ++ natDigitBytes v.intNat ++
    46 :: v.frac.map (fun d => d + 48)

/-- The bytes `json.dump` writes for a document value. -/
def renderJVal : JVal → List Nat
  | .num n => renderJNum n
  | .bool true => [116, 114, 117, 101]
  | .bool false => [102, 97, 108, 115, 101]

/-- Decimal value of a run of ASCII digit bytes (`int(digits)`). -/
def digitsVal (l : List Nat) : Nat :=
  l.foldl (fun a c => a * 10 + (c - 48)) 0

/-- Reads an unsigned float token `ddd.ddd`. -/
def decodeUnsigned (t : List Nat) : Option JNum :=
  let ip := t.takeWhile (fun b => !(b == 46))
  match t.dropWhile (fun b => !(b == 46)) with
  | 46 :: fr =>
      if ip ≠ [] ∧ fr ≠ [] ∧ (∀ b ∈ ip, isDigitByte b = true) ∧
          (∀ b ∈ fr, isDigitByte b = true) then
        some ⟨false, digitsVal ip, fr.map (fun b => b - 48)⟩
      else none
  | _ => none

/-- Reads a float token with an optional leading minus sign. -/
def decodeNum (t : List Nat) : Option JNum :=
  if t.take 1 = [45] then
    (decodeUnsigned (t.drop 1)).map (fun u => { u with neg := true })
  else decodeUnsigned t

/-- Every byte of `natDigitBytes` is an ASCII digit. -/
theorem natDigitBytes_digits (n : Nat) :
    ∀ b ∈ natDigitBytes n, 48 ≤ b ∧ b ≤ 57 := by
  intro b hb
  unfold natDigitBytes at hb
  obtain ⟨d, hd, rfl⟩ := List.mem_map.mp hb
  by_cases hn : n = 0
  · simp [hn] at hd
    omega
  · simp only [hn, if_false] at hd
    have : d < 10 := Nat.digits_lt_base (by norm_num) (List.mem_reverse.mp hd)
    omega

/-- `natDigitBytes` is never empty. -/
theorem natDigitBytes_ne_nil (n : Nat) : natDigitBytes n ≠ [] := by
  unfold natDigitBytes
  by_cases hn : n = 0
  · simp [hn]
  · simp only [hn, if_false, ne_eq, List.map_eq_nil_iff, List.reverse_eq_nil_iff]
    exact show Nat.digits 10 n ≠ [] from Nat.digits_ne_nil_iff_ne_zero.mpr hn

/-- `digitsVal` recovers the number `natDigitBytes` spells. -/
theorem digitsVal_natDigitBytes (n : Nat) : digitsVal (natDigitBytes n) = n := by
  unfold digitsVal natDigitBytes
  by_cases hn : n = 0
  · simp [hn]
  · simp only [hn, if_false]
    rw [foldl_digit_bytes _ (fun d hd => Nat.digits_lt_base (by norm_num)
      (List.mem_reverse.mp hd))]
    simp [Nat.ofDigits_digits]

/-- `takeWhile` and `dropWhile` split exactly at the first failing
element when everything before it satisfies the predicate. -/
theorem takeWhile_dropWhile_split (p : Nat → Bool) (l1 : List Nat) (c : Nat)
    (l2 : List Nat) (h1 : ∀ x ∈ l1, p x = true) (hc : p c = false) :
    (l1 ++ c :: l2).takeWhile p = l1 ∧ (l1 ++ c :: l2).dropWhile p = c :: l2 := by
  induction l1 with
  | nil => simp [List.takeWhile_cons, List.dropWhile_cons, hc]
  | cons a l1 ih =>
      have ha : p a = true := h1 a (by simp)
      have hrest : ∀ x ∈ l1, p x = true := fun x hx => h1 x (by simp [hx])
      obtain ⟨iht, ihd⟩ := ih hrest
      constructor
      · simp [List.takeWhile_cons, ha, iht]
      · simp [List.dropWhile_cons, ha, ihd]

/-- `decodeUnsigned` inverts the unsigned part of `renderJNum`. -/
theorem decodeUnsigned_round (n : Nat) (frac : List Nat)
    (hfr : frac ≠ []) (hdigits : ∀ d ∈ frac, d < 10) :
    decodeUnsigned (natDigitBytes n ++ 46 :: frac.map (fun d => d + 48)) =
      some ⟨false, n, frac⟩ := by
  have hip : ∀ x ∈ natDigitBytes n, (!(x == 46)) = true := by
    intro x hx
    have := natDigitBytes_digits n x hx
    simp only [Bool.not_eq_eq_eq_not, Bool.not_true, beq_eq_false_iff_ne, ne_eq]
    omega
  have hsplit := takeWhile_dropWhile_split (fun b => !(b == 46))
    (natDigitBytes n) 46 (frac.map (fun d => d + 48)) hip (by simp)
  have hcond : natDigitBytes n ≠ [] ∧ frac.map (fun d => d + 48) ≠ [] ∧
      (∀ b ∈ natDigitBytes n, isDigitByte b = true) ∧
      (∀ b ∈ frac.map (fun d => d + 48), isDigitByte b = true) := by
    refine ⟨natDigitBytes_ne_nil n, by simp [hfr], ?_, ?_⟩
    · intro b hb
      have := natDigitBytes_digits n b hb
      simp only [isDigitByte, Bool.and_eq_true, decide_eq_true_eq]
      omega
    · intro b hb
      obtain ⟨d, hd, rfl⟩ := List.mem_map.mp hb
      have := hdigits d hd
      simp only [isDigitByte, Bool.and_eq_true, decide_eq_true_eq]
      omega
  have hmap : (frac.map (fun d => d + 48)).map (fun b => b - 48) = frac := by
    rw [List.map_map]
    have : ((fun b => b - 48) ∘ fun d => d + 48) = id := by
      funext d; simp
    rw [this, List.map_id]
  simp only [decodeUnsigned, hsplit.1, hsplit.2]
  rw [if_pos hcond, digitsVal_natDigitBytes, hmap]

/-- `decodeNum` inverts `renderJNum` on canonical literals. -/
theorem decodeNum_round (v : JNum) (hv : v.canonical) :
    decodeNum (renderJNum v) = some v := by
  obtain ⟨hfr, hdigits⟩ := hv
  have hun := decodeUnsigned_round v.intNat v.frac hfr hdigits
  cases hneg : v.neg with
  | true =>
      have hrender : renderJNum v =
          45 :: (natDigitBytes v.intNat ++ 46 :: v.frac.map (fun d => d + 48)) := by
        unfold renderJNum
        rw [hneg]
        simp
      rw [hrender]
      unfold decodeNum
      rw [if_pos (by simp)]
      simp only [List.drop_succ_cons, List.drop_zero, hun, Option.map_some]
      cases v
      simp_all
  | false =>
      have hrender : renderJNum v =
          natDigitBytes v.intNat ++ 46 :: v.frac.map (fun d => d + 48) := by
        unfold renderJNum
        rw [hneg]
        simp
      rw [hrender]
      obtain ⟨b, bs, hb⟩ : ∃ b bs, natDigitBytes v.intNat = b :: bs := by
        cases hnd : natDigitBytes v.intNat with
        | nil => exact absurd hnd (natDigitBytes_ne_nil v.intNat)
        | cons b bs => exact ⟨b, bs, rfl⟩
      have hbd := natDigitBytes_digits v.intNat b (by rw [hb]; simp)
      rw [hb, List.cons_append]
      unfold decodeNum
      rw [if_neg (by
        simp only [List.take_succ_cons, List.take_zero, List.cons.injEq, and_true]
        omega)]
      rw [← List.cons_append, ← hb, hun]
      cases v
      simp_all

/-- JSON whitespace bytes (space, newline, tab, carriage return). -/
def isWsByte (b : Nat) : Bool :=
  b == 32 || b == 10 || b == 9 || b == 13

/-- Skip leading JSON whitespace. -/
def skipWs (cs : List Nat) : List Nat :=
  cs.dropWhile isWsByte

/-- Bytes that may occur in the float tokens the state writer emits. -/
def isNumByte (b : Nat) : Bool :=
  isDigitByte b || b == 46 || b == 45

/-- Reads a JSON string literal `"..."`; returns its contents and the
remaining input. Escapes never occur in the fixed state-document keys. -/
def parseStringLit (cs : List Nat) : Option (List Nat × List Nat) :=
  if cs.take 1 = [34] then
    match (cs.drop 1).dropWhile (fun b => !(b == 34)) with
    | [] => none
    | c :: r2 =>
        if c = 34 then some ((cs.drop 1).takeWhile (fun b => !(b == 34)), r2)
        else none
  else none

/-- Reads a JSON value of the state-document grammar: `true`, `false`,
or a float literal. -/
def parseJVal (cs : List Nat) : Option (JVal × List Nat) :=
  if cs.take 4 = [116, 114, 117, 101] then some (JVal.bool true, cs.drop 4)
  else if cs.take 5 = [102, 97, 108, 115, 101] then some (JVal.bool false, cs.drop 5)
  else
    if cs.takeWhile isNumByte = [] then none
    else
      match decodeNum (cs.takeWhile isNumByte) with
      | none => none
      | some v => some (JVal.num v, cs.dropWhile isNumByte)

/-- `skipWs` walks over a whitespace byte. -/
theorem skipWs_cons_ws (b : Nat) (l : List Nat) (h : isWsByte b = true) :
    skipWs (b :: l) = skipWs l := by
  simp [skipWs, List.dropWhile_cons, h]

/-- `skipWs` stops at a non-whitespace byte. -/
theorem skipWs_cons_not (b : Nat) (l : List Nat) (h : isWsByte b = false) :
    skipWs (b :: l) = b :: l := by
  simp [skipWs, List.dropWhile_cons, h]

/-- `takeWhile` and `dropWhile` pass over a block that satisfies the
predicate throughout. -/
theorem takeWhile_dropWhile_pass (p : Nat → Bool) (l1 l2 : List Nat)
    (h : ∀ x ∈ l1, p x = true) :
    (l1 ++ l2).takeWhile p = l1 ++ l2.takeWhile p ∧
    (l1 ++ l2).dropWhile p = l2.dropWhile p := by
  induction l1 with
  | nil => simp
  | cons a l1 ih =>
      have ha : p a = true := h a (by simp)
      have hrest : ∀ x ∈ l1, p x = true := fun x hx => h x (by simp [hx])
      obtain ⟨iht, ihd⟩ := ih hrest
      exact ⟨by simp [List.takeWhile_cons, ha, iht], by simp [List.dropWhile_cons, ha, ihd]⟩

/-- If `takeWhile` takes nothing, `dropWhile` drops nothing. -/
theorem dropWhile_eq_self_of_takeWhile_nil (p : Nat → Bool) (l : List Nat)
    (h : l.takeWhile p = []) : l.dropWhile p = l := by
  cases l with
  | nil => rfl
  | cons a l =>
      rw [List.takeWhile_cons] at h
      by_cases ha : p a = true
      · rw [if_pos ha] at h
        exact absurd h (by simp)
      · rw [List.dropWhile_cons, if_neg ha]

/-- `parseStringLit` reads back a quoted key. -/
theorem parseStringLit_round (k rest : List Nat)
    (hk : ∀ b ∈ k, (b == 34) = false) :
    parseStringLit (34 :: (k ++ 34 :: rest)) = some (k, rest) := by
  have hsplit := takeWhile_dropWhile_split (fun b => !(b == 34)) k 34 rest
    (by intro x hx; simp [hk x hx]) (by simp)
  unfold parseStringLit
  rw [if_pos (by simp)]
  simp only [List.drop_succ_cons, List.drop_zero, hsplit.1, hsplit.2]
  simp

/-- Every byte of a canonical float literal is a number byte. -/
theorem renderJNum_numBytes (v : JNum) (hv : v.canonical) :
    ∀ b ∈ renderJNum v, isNumByte b = true := by
  intro b hb
  unfold renderJNum at hb
  simp only [List.mem_append, List.mem_cons] at hb
  rcases hb with (hb | hb) | hb | hb
  · have : b = 45 := by
      cases hneg : v.neg <;> rw [hneg] at hb <;> simp_all
    simp [this, isNumByte]
  · have := natDigitBytes_digits v.intNat b hb
    simp only [isNumByte, isDigitByte, Bool.or_eq_true, Bool.and_eq_true,
      decide_eq_true_eq]
    omega
  · simp [hb, isNumByte]
  · obtain ⟨d, hd, rfl⟩ := List.mem_map.mp hb
    have := hv.2 d hd
    simp only [isNumByte, isDigitByte, Bool.or_eq_true, Bool.and_eq_true,
      decide_eq_true_eq]
    omega

/-- A canonical float literal starts with a minus sign or a digit. -/
theorem renderJNum_head (v : JNum) :
    ∃ b bs, renderJNum v = b :: bs ∧ (b = 45 ∨ (48 ≤ b ∧ b ≤ 57)) := by
  unfold renderJNum
  cases hneg : v.neg with
  | true =>
      refine ⟨45, natDigitBytes v.intNat ++ 46 :: v.frac.map (fun d => d + 48),
        ?_, Or.inl rfl⟩
      simp
  | false =>
      obtain ⟨b, bs, hb⟩ : ∃ b bs, natDigitBytes v.intNat = b :: bs := by
        cases hnd : natDigitBytes v.intNat with
        | nil => exact absurd hnd (natDigitBytes_ne_nil v.intNat)
        | cons b bs => exact ⟨b, bs, rfl⟩
      refine ⟨b, bs ++ 46 :: v.frac.map (fun d => d + 48), ?_, Or.inr ?_⟩
      · simp [hb]
      · exact natDigitBytes_digits v.intNat b (by rw [hb]; simp)

/-- `parseJVal` reads back a rendered value when the following byte
cannot extend a number token. -/
theorem parseJVal_round (v : JVal) (hv : v.canonical) (tail : List Nat)
    (htail : tail.takeWhile isNumByte = []) :
    parseJVal (renderJVal v ++ tail) = some (v, tail) := by
  cases v with
  | bool b =>
      cases b with
      | true => simp [renderJVal, parseJVal, List.take, List.drop]
      | false => simp [renderJVal, parseJVal, List.take, List.drop]
  | num n =>
      rw [show renderJVal (JVal.num n) = renderJNum n from rfl]
      obtain ⟨b, bs, hb, hrange⟩ := renderJNum_head n
      have hnum := renderJNum_numBytes n hv
      have hpass := takeWhile_dropWhile_pass isNumByte (renderJNum n) tail hnum
      have htok : (renderJNum n ++ tail).takeWhile isNumByte = renderJNum n := by
        rw [hpass.1, htail, List.append_nil]
      have hdrop : (renderJNum n ++ tail).dropWhile isNumByte = tail := by
        rw [hpass.2, dropWhile_eq_self_of_takeWhile_nil _ _ htail]
      have hne116 : ¬ (renderJNum n ++ tail).take 4 = [116, 114, 117, 101] := by
        simp only [hb, List.cons_append, List.take_succ_cons, List.cons.injEq]
        intro hcontra
        omega
      have hne102 : ¬ (renderJNum n ++ tail).take 5 = [102, 97, 108, 115, 101] := by
        simp only [hb, List.cons_append, List.take_succ_cons, List.cons.injEq]
        intro hcontra
        omega
      unfold parseJVal
      rw [if_neg hne116, if_neg hne102, htok, hdrop]
      rw [if_neg (by rw [hb]; simp)]
      rw [decodeNum_round n hv]

/-- Parses `"key": value` fields separated by `,` until the closing
`}` of the object, which it consumes; the first argument is fuel
bounding the number of fields. -/
def parseFields : Nat → List Nat → Option (List (List Nat × JVal) × List Nat)
  | 0, _ => none
  | fuel + 1, cs =>
      match parseStringLit (skipWs cs) with
      | none => none
      | some (k, cs2) =>
          match skipWs cs2 with
          | [] => none
          | c :: cs4 =>
              if c = 58 then
                match parseJVal (skipWs cs4) with
                | none => none
                | some (v, cs6) =>
                    match skipWs cs6 with
                    | [] => none
                    | c2 :: cs8 =>
                        if c2 = 44 then
                          match parseFields fuel cs8 with
                          | none => none
                          | some (fs, rest) => some ((k, v) :: fs, rest)
                        else if c2 = 125 then some ([(k, v)], cs8)
                        else none
              else none

/-- Model of `json.load` restricted to the flat state-document grammar:
an object of string keys and number/bool values, with nothing but
whitespace after the closing brace. -/
def jsonLoadStateDoc (cs : List Nat) : Option (List (List Nat × JVal)) :=
  match skipWs cs with
  | [] => none
  | c :: cs2 =>
      if c = 123 then
        match skipWs cs2 with
        | [] => none
        | c2 :: r =>
            if c2 = 125 then (if skipWs r = [] then some [] else none)
            else
              match parseFields (cs2.length + 1) cs2 with
              | none => none
              | some (fs, rest) => if skipWs rest = [] then some fs else none
      else none

/-- The bytes `json.dump(..., indent=2)` writes for one field:
newline, two-space indent, the quoted key, `": "`, and the value. -/
def entryChars (k : List Nat) (v : JVal) : List Nat :=
  [10, 32, 32, 34] ++ k ++ [34, 58, 32] ++ renderJVal v

/-- The bytes after the opening `{`: the comma-separated fields, the
final newline, and the closing `}`. -/
def entriesChars : List (List Nat × JVal) → List Nat
  | [] => [125]
  | [(k, v)] => entryChars k v ++ [10, 125]
  | (k, v) :: rest => entryChars k v ++ 44 :: entriesChars rest

/-- A serialisable field: the key contains no quote and no byte at or
above `{`, and the value is canonical. -/
def wfEntry : List Nat × JVal → Prop
  | (k, v) => (∀ b ∈ k, b ≠ 34 ∧ b < 123) ∧ v.canonical

/-- A rendered value starts with a byte that is neither whitespace nor
a brace. -/
theorem renderJVal_cons (v : JVal) :
    ∃ b bs, renderJVal v = b :: bs ∧ isWsByte b = false := by
  cases v with
  | num n =>
      obtain ⟨b, bs, hb, hrange⟩ := renderJNum_head n
      refine ⟨b, bs, hb, ?_⟩
      rcases hrange with h | h
      · simp [h, isWsByte]
      · simp only [isWsByte, Bool.or_eq_false_iff, beq_eq_false_iff_ne, ne_eq]
        omega
  | bool b =>
      cases b with
      | true => exact ⟨116, _, rfl, rfl⟩
      | false => exact ⟨102, _, rfl, rfl⟩

/-- `parseFields` reads back a serialised block of fields, consuming the
closing brace exactly. -/
theorem parseFields_round :
    ∀ (entries : List (List Nat × JVal)) (fuel : Nat), entries ≠ [] →
      entries.length ≤ fuel → (∀ e ∈ entries, wfEntry e) →
      parseFields fuel (entriesChars entries) = some (entries, []) := by
  intro entries
  induction entries with
  | nil => intro fuel hne _ _; exact absurd rfl hne
  | cons hd tl ih =>
      intro fuel _ hfuel hwf
      obtain ⟨k, v⟩ := hd
      obtain ⟨hk, hv⟩ := hwf (k, v) (by simp)
      have hk34 : ∀ b ∈ k, (b == 34) = false := by
        intro b hb
        simp [(hk b hb).1]
      obtain ⟨vb, vbs, hvb, hvbws⟩ := renderJVal_cons v
      obtain ⟨f, rfl⟩ : ∃ f, fuel = f + 1 := by
        refine ⟨fuel - 1, ?_⟩
        have : 1 ≤ fuel := le_trans (by simp) hfuel
        omega
      -- the tail after this entry's value: [10, 125] for the last entry,
      -- `44 :: entriesChars tl` otherwise
      have main : ∀ T : List Nat, T.takeWhile isNumByte = [] →
          parseFields (f + 1)
            (10 :: 32 :: 32 :: 34 :: (k ++ 34 :: 58 :: 32 :: (renderJVal v ++ T))) =
          match skipWs T with
          | [] => none
          | c2 :: cs8 =>
              if c2 = 44 then
                match parseFields f cs8 with
                | none => none
                | some (fs, rest) => some ((k, v) :: fs, rest)
              else if c2 = 125 then some ([(k, v)], cs8)
              else none := by
        intro T hT
        have hskip1 : skipWs
            (10 :: 32 :: 32 :: 34 :: (k ++ 34 :: 58 :: 32 :: (renderJVal v ++ T))) =
            34 :: (k ++ 34 :: 58 :: 32 :: (renderJVal v ++ T)) := by
          rw [skipWs_cons_ws 10 _ rfl, skipWs_cons_ws 32 _ rfl, skipWs_cons_ws 32 _ rfl,
            skipWs_cons_not 34 _ rfl]
        have hstr := parseStringLit_round k (58 :: 32 :: (renderJVal v ++ T)) hk34
        have hskip2 : skipWs (58 :: 32 :: (renderJVal v ++ T)) =
            58 :: 32 :: (renderJVal v ++ T) := skipWs_cons_not 58 _ rfl
        have hskip3 : skipWs (32 :: (renderJVal v ++ T)) = renderJVal v ++ T := by
          rw [skipWs_cons_ws 32 _ rfl, hvb, List.cons_append,
            skipWs_cons_not _ _ hvbws, ← List.cons_append, ← hvb]
        have hjv := parseJVal_round v hv T hT
        simp only [parseFields, hskip1, hstr, hskip2, hskip3, hjv]
        simp
      cases tl with
      | nil =>
          have hec : entriesChars [(k, v)] =
              10 :: 32 :: 32 :: 34 :: (k ++ 34 :: 58 :: 32 :: (renderJVal v ++ [10, 125])) := by
            show entryChars k v ++ [10, 125] = _
            simp [entryChars]
          rw [hec, main [10, 125] rfl]
          have : skipWs [10, 125] = [125] := by
            rw [skipWs_cons_ws 10 _ rfl, skipWs_cons_not 125 _ rfl]
          rw [this]
          norm_num
      | cons e2 rest2 =>
          have hec : entriesChars ((k, v) :: e2 :: rest2) =
              10 :: 32 :: 32 :: 34 ::
                (k ++ 34 :: 58 :: 32 :: (renderJVal v ++ 44 :: entriesChars (e2 :: rest2))) := by
            show entryChars k v ++ 44 :: entriesChars (e2 :: rest2) = _
            simp [entryChars]
          have hT : (44 :: entriesChars (e2 :: rest2)).takeWhile isNumByte = [] := by
            rw [List.takeWhile_cons]
            norm_num [isNumByte, isDigitByte]
          rw [hec, main _ hT]
          have hskipT : skipWs (44 :: entriesChars (e2 :: rest2)) =
              44 :: entriesChars (e2 :: rest2) := skipWs_cons_not 44 _ rfl
          rw [hskipT]
          have hih := ih f (by simp) (by simpa using hfuel)
            (fun e he => hwf e (by simp [he]))
          simp [hih]

/-- The remainder returned by `parseStringLit` is a suffix of the input. -/
theorem parseStringLit_suffix {cs k rest : List Nat}
    (h : parseStringLit cs = some (k, rest)) : rest <:+ cs := by
  unfold parseStringLit at h
  split at h
  · split at h
    · exact absurd h (by simp)
    · rename_i c r2 heq
      split at h
      · simp only [Option.some.injEq, Prod.mk.injEq] at h
        have s1 : rest <:+ c :: r2 := h.2 ▸ ⟨[c], rfl⟩
        have s2 : c :: r2 <:+ cs.drop 1 := heq ▸ List.dropWhile_suffix _
        exact s1.trans (s2.trans (List.drop_suffix 1 cs))
      · exact absurd h (by simp)
  · exact absurd h (by simp)

/-- The remainder returned by `parseJVal` is a suffix of the input. -/
theorem parseJVal_suffix {cs : List Nat} {v : JVal} {rest : List Nat}
    (h : parseJVal cs = some (v, rest)) : rest <:+ cs := by
  unfold parseJVal at h
  split at h
  · simp only [Option.some.injEq, Prod.mk.injEq] at h
    exact h.2 ▸ List.drop_suffix 4 cs
  · split at h
    · simp only [Option.some.injEq, Prod.mk.injEq] at h
      exact h.2 ▸ List.drop_suffix 5 cs
    · split at h
      · exact absurd h (by simp)
      · split at h
        · exact absurd h (by simp)
        · simp only [Option.some.injEq, Prod.mk.injEq] at h
          exact h.2 ▸ List.dropWhile_suffix _

/-- A successful `parseFields` run consumed a closing brace: the input
contains the byte `125`. -/
theorem parseFields_hasBrace :
    ∀ (fuel : Nat) (cs : List Nat) (fs : List (List Nat × JVal)) (rest : List Nat),
      parseFields fuel cs = some (fs, rest) → 125 ∈ cs := by
  intro fuel
  induction fuel with
  | zero => intro cs fs rest h; exact absurd h (by simp [parseFields])
  | succ f ih =>
      intro cs fs rest h
      unfold parseFields at h
      split at h
      · exact absurd h (by simp)
      · rename_i k cs2 hstr
        have scs2 : cs2 <:+ cs :=
          (parseStringLit_suffix hstr).trans (List.dropWhile_suffix _)
        split at h
        · exact absurd h (by simp)
        · rename_i c cs4 hskip2
          have scs4 : cs4 <:+ cs :=
            ((show cs4 <:+ c :: cs4 from ⟨[c], rfl⟩).trans
              (hskip2 ▸ List.dropWhile_suffix _)).trans scs2
          split at h
          · split at h
            · exact absurd h (by simp)
            · rename_i v cs6 hjv
              have scs6 : cs6 <:+ cs :=
                ((parseJVal_suffix hjv).trans (List.dropWhile_suffix _)).trans scs4
              split at h
              · exact absurd h (by simp)
              · rename_i c2 cs8 hskip6
                have shead : c2 :: cs8 <:+ cs := by
                  have h1 : skipWs cs6 <:+ cs6 := List.dropWhile_suffix _
                  rw [hskip6] at h1
                  exact h1.trans scs6
                split at h
                · split at h
                  · exact absurd h (by simp)
                  · rename_i fs2 rest2 hrec
                    have h125 : 125 ∈ cs8 := ih cs8 fs2 rest2 hrec
                    exact shead.subset (List.mem_cons_of_mem c2 h125)
                · split at h
                  · rename_i hc2
                    subst hc2
                    exact shead.subset (List.mem_cons_self _ _)
                  · exact absurd h (by simp)
          · exact absurd h (by simp)

/-- A successful `jsonLoadStateDoc` run read a closing brace: the input
contains the byte `125`. -/
theorem jsonLoadStateDoc_hasBrace {cs : List Nat} {fs : List (List Nat × JVal)}
    (h : jsonLoadStateDoc cs = some fs) : 125 ∈ cs := by
  unfold jsonLoadStateDoc at h
  split at h
  · exact absurd h (by simp)
  · rename_i c cs2 hskip
    have scs2 : cs2 <:+ cs :=
      ((show cs2 <:+ c :: cs2 from ⟨[c], rfl⟩).trans
        (hskip ▸ List.dropWhile_suffix _))
    split at h
    · split at h
      · exact absurd h (by simp)
      · rename_i c2 r hskip2
        have shead : c2 :: r <:+ cs := by
          have h1 : skipWs cs2 <:+ cs2 := List.dropWhile_suffix _
          rw [hskip2] at h1
          exact h1.trans scs2
        split at h
        · rename_i hc2
          subst hc2
          exact shead.subset (List.mem_cons_self _ _)
        · split at h
          · exact absurd h (by simp)
          · rename_i fs2 rest2 hfields
            have h125 : 125 ∈ cs2 := parseFields_hasBrace _ cs2 fs2 rest2 hfields
            exact scs2.subset h125
    · exact absurd h (by simp)

/-! ## The GlobalState document and the save/load pipeline -/

/-- The bytes of the key `temp_setpoint`. -/
def tempKey : List Nat := [116, 101, 109, 112, 95, 115, 101, 116, 112, 111, 105, 110, 116]

/-- The bytes of the key `humidity_setpoint`. -/
def humidityKey : List Nat := [104, 117, 109, 105, 100, 105, 116, 121, 95, 115, 101, 116, 112, 111, 105, 110, 116]

/-- The bytes of the key `o2_setpoint`. -/
def o2Key : List Nat := [111, 50, 95, 115, 101, 116, 112, 111, 105, 110, 116]

/-- The bytes of the key `co2_setpoint`. -/
def co2Key : List Nat := [99, 111, 50, 95, 115, 101, 116, 112, 111, 105, 110, 116]

/-- The bytes of the key `incubator_running`. -/
def runningKey : List Nat := [105, 110, 99, 117, 98, 97, 116, 111, 114, 95, 114, 117, 110, 110, 105, 110, 103]

/-- The bytes of the key `temperature_enabled`. -/
def tempEnKey : List Nat := [116, 101, 109, 112, 101, 114, 97, 116, 117, 114, 101, 95, 101, 110, 97, 98, 108, 101, 100]

/-- The bytes of the key `humidity_enabled`. -/
def humEnKey : List Nat := [104, 117, 109, 105, 100, 105, 116, 121, 95, 101, 110, 97, 98, 108, 101, 100]

/-- The bytes of the key `o2_enabled`. -/
def o2EnKey : List Nat := [111, 50, 95, 101, 110, 97, 98, 108, 101, 100]

/-- The bytes of the key `co2_enabled`. -/
def co2EnKey : List Nat := [99, 111, 50, 95, 101, 110, 97, 98, 108, 101, 100]

/-- The bytes of the key `air_pump_enabled`. -/
def airKey : List Nat := [97, 105, 114, 95, 112, 117, 109, 112, 95, 101, 110, 97, 98, 108, 101, 100]
/-- The persisted `GlobalState`: the four setpoints (as the float
literals `json.dump` writes) and the six flags, in the key order of the
dictionaries built in manager.py. -/
structure GlobalState where
  tempSetpoint : JNum
  humiditySetpoint : JNum
  o2Setpoint : JNum
  co2Setpoint : JNum
  incubatorRunning : Bool
  temperatureEnabled : Bool
  humidityEnabled : Bool
  o2Enabled : Bool
  co2Enabled : Bool
  airPumpEnabled : Bool
deriving DecidableEq, Repr

/-- All four setpoint literals are canonical. -/
def GlobalState.canonical (st : GlobalState) : Prop :=
  st.tempSetpoint.canonical ∧ st.humiditySetpoint.canonical ∧
    st.o2Setpoint.canonical ∧ st.co2Setpoint.canonical

/-- The defaults of manager.py 88-92 and 251-262: setpoints 37.0, 60.0,
5.0, 1000.0, `incubator_running = False`, all enable flags `True`. -/
def defaultState : GlobalState :=
  { tempSetpoint := ⟨false, 37, [0]⟩
    humiditySetpoint := ⟨false, 60, [0]⟩
    o2Setpoint := ⟨false, 5, [0]⟩
    co2Setpoint := ⟨false, 1000, [0]⟩
    incubatorRunning := false
    temperatureEnabled := true
    humidityEnabled := true
    o2Enabled := true
    co2Enabled := true
    airPumpEnabled := true }

/-- The state dictionary `_save_state` serialises, in insertion order
(manager.py 226-237). -/
def stateEntries (st : GlobalState) : List (List Nat × JVal) :=
  [(tempKey, JVal.num st.tempSetpoint),
   (humidityKey, JVal.num st.humiditySetpoint),
   (o2Key, JVal.num st.o2Setpoint),
   (co2Key, JVal.num st.co2Setpoint),
   (runningKey, JVal.bool st.incubatorRunning),
   (tempEnKey, JVal.bool st.temperatureEnabled),
   (humEnKey, JVal.bool st.humidityEnabled),
   (o2EnKey, JVal.bool st.o2Enabled),
   (co2EnKey, JVal.bool st.co2Enabled),
   (airKey, JVal.bool st.airPumpEnabled)]

/-- The bytes `json.dump(state, f, indent=2)` writes for the full
document. -/
def serializeState (st : GlobalState) : List Nat :=
  123 :: entriesChars (stateEntries st)

/-- Dictionary lookup over the parsed document. -/
def lookupField (fields : List (List Nat × JVal)) (k : List Nat) : Option JVal :=
  (fields.find? (fun p => p.1 == k)).map Prod.snd

/-- `float(x)` on a parsed document value (`float(True) = 1.0`,
`float(False) = 0.0`). -/
def jvalToFloat : JVal → JNum
  | .num n => n
  | .bool true => ⟨false, 1, [0]⟩
  | .bool false => ⟨false, 0, [0]⟩

/-- `bool(x)` on a parsed document value. -/
def jvalTruthy : JVal → Bool
  | .num n => n.truthy
  | .bool b => b

/-- Embeds `_apply_state_to_self` (manager.py 299-322) applied to the
defaults-merged dictionary: each value is looked up in the file's
dictionary and falls back to the default (`loaded_state =
default_state.copy(); loaded_state.update(state_from_file)`), the
setpoints are converted with `float()` and assigned through the loop
setpoint setters - so the humidity and O2 values are range-checked
against [0, 100] and the CO2 value against `> 0`, keeping the loop's
previous setpoint (`prev`) on rejection, while the temperature setter
performs no check - and the six flags are converted with `bool()`. -/
def ControlManager.applyState (prev : GlobalState) (fields : List (List Nat × JVal)) :
    GlobalState :=
  { tempSetpoint :=
      jvalToFloat ((lookupField fields tempKey).getD (JVal.num defaultState.tempSetpoint))
    humiditySetpoint :=
      if 0 ≤ (jvalToFloat ((lookupField fields humidityKey).getD
            (JVal.num defaultState.humiditySetpoint))).toRat ∧
          (jvalToFloat ((lookupField fields humidityKey).getD
            (JVal.num defaultState.humiditySetpoint))).toRat ≤ 100 then
        jvalToFloat ((lookupField fields humidityKey).getD
          (JVal.num defaultState.humiditySetpoint))
      else prev.humiditySetpoint
    o2Setpoint :=
      if 0 ≤ (jvalToFloat ((lookupField fields o2Key).getD
            (JVal.num defaultState.o2Setpoint))).toRat ∧
          (jvalToFloat ((lookupField fields o2Key).getD
            (JVal.num defaultState.o2Setpoint))).toRat ≤ 100 then
        jvalToFloat ((lookupField fields o2Key).getD (JVal.num defaultState.o2Setpoint))
      else prev.o2Setpoint
    co2Setpoint :=
      if 0 < (jvalToFloat ((lookupField fields co2Key).getD
            (JVal.num defaultState.co2Setpoint))).toRat then
        jvalToFloat ((lookupField fields co2Key).getD (JVal.num defaultState.co2Setpoint))
      else prev.co2Setpoint
    incubatorRunning := jvalTruthy ((lookupField fields runningKey).getD (JVal.bool false))
    temperatureEnabled := jvalTruthy ((lookupField fields tempEnKey).getD (JVal.bool true))
    humidityEnabled := jvalTruthy ((lookupField fields humEnKey).getD (JVal.bool true))
    o2Enabled := jvalTruthy ((lookupField fields o2EnKey).getD (JVal.bool true))
    co2Enabled := jvalTruthy ((lookupField fields co2EnKey).getD (JVal.bool true))
    airPumpEnabled := jvalTruthy ((lookupField fields airKey).getD (JVal.bool true)) }

/-- Embeds `ControlManager._load_state` (manager.py 246-297): a missing
file or a parse failure applies the defaults dictionary; a parsed
dictionary is merged over the defaults and applied. -/
def ControlManager.loadState (fileContent : Option (List Nat)) : GlobalState :=
  match fileContent with
  | none => ControlManager.applyState defaultState (stateEntries defaultState)
  | some cs =>
      match jsonLoadStateDoc cs with
      | none => ControlManager.applyState defaultState (stateEntries defaultState)
      | some fields => ControlManager.applyState defaultState fields

/-- The path constant `STATE_FILE_PATH` (manager.py 94). -/
def statePath : String := "app/state.json"

/-- A file-system operation issued while persisting state. -/
inductive FsOp where
  | writeFile (path : String) (content : List Nat)
  | rename (src dst : String)
deriving DecidableEq, Repr

/-- Embeds `ControlManager._save_state` (manager.py 239-244) as the
file-system operations it performs: `open(STATE_FILE_PATH, 'w')` followed
by `json.dump` is a single truncating write of the serialised document
directly to the state path - no temp file and no rename. -/
def ControlManager.saveStateOps (st : GlobalState) : List FsOp :=
  [FsOp.writeFile statePath (serializeState st)]

/-- Modelled from the spec: "Writers write to a sibling temp file and
atomically rename" (spec section 6; also section 4.7
"write-temp-then-rename"). A save is atomic in the spec's sense when no
write touches the final path and the last operation renames a different
path onto it. -/
def atomicTempRenameSave (ops : List FsOp) (finalPath : String) : Prop :=
  (∀ op ∈ ops, ∀ c : List Nat, op ≠ FsOp.writeFile finalPath c) ∧
  (∃ tmp, tmp ≠ finalPath ∧ ops.getLast? = some (FsOp.rename tmp finalPath))

/-- The content of `path` if the process dies while executing `op`, after
`k` bytes of a truncating write have reached the disk; `prior` is the
content before the operation. -/
def contentAfterCrashDuringWrite (op : FsOp) (path : String)
    (prior : Option (List Nat)) (k : Nat) : Option (List Nat) :=
  match op with
  | .writeFile p c => if p = path then some (c.take k) else prior
  | .rename _ _ => prior

/-- Every byte of a canonically rendered value stays below `{`. -/
theorem renderJVal_lt (v : JVal) (hv : v.canonical) :
    ∀ b ∈ renderJVal v, b < 123 := by
  intro b hb
  cases v with
  | bool bb =>
      cases bb <;> simp only [renderJVal, List.mem_cons, List.not_mem_nil, or_false] at hb <;>
        rcases hb with rfl | rfl | rfl | rfl | rfl <;> norm_num
  | num n =>
      have hcn : n.canonical := hv
      unfold renderJVal renderJNum at hb
      simp only [List.mem_append, List.mem_cons] at hb
      rcases hb with (hb | hb) | hb | hb
      · have hb45 : b = 45 := by
          cases hneg : n.neg <;> rw [hneg] at hb <;> simp_all
        omega
      · have := natDigitBytes_digits n.intNat b hb
        omega
      · omega
      · obtain ⟨d, hd, rfl⟩ := List.mem_map.mp hb
        have := hcn.2 d hd
        omega

/-- No byte of a serialised field reaches `{`; in particular none is the
closing brace. -/
theorem entryChars_lt (k : List Nat) (v : JVal) (hwf : wfEntry (k, v)) :
    ∀ b ∈ entryChars k v, b < 123 := by
  intro b hb
  unfold entryChars at hb
  rcases List.mem_append.mp hb with h | h
  · rcases List.mem_append.mp h with h | h
    · rcases List.mem_append.mp h with h | h
      · simp only [List.mem_cons, List.not_mem_nil, or_false] at h
        rcases h with rfl | rfl | rfl | rfl <;> norm_num
      · exact (hwf.1 b h).2
    · simp only [List.mem_cons, List.not_mem_nil, or_false] at h
      rcases h with rfl | rfl | rfl <;> norm_num
  · exact renderJVal_lt v hwf.2 b h

/-- No byte of a serialised field is a closing brace. -/
theorem entryChars_no_brace (k : List Nat) (v : JVal) (hwf : wfEntry (k, v)) :
    ∀ b ∈ entryChars k v, b ≠ 125 := by
  intro b hb
  have := entryChars_lt k v hwf b hb
  omega

/-- `entriesChars` is a brace-free body followed by the single closing
brace. -/
theorem entriesChars_split :
    ∀ (entries : List (List Nat × JVal)), (∀ e ∈ entries, wfEntry e) →
      ∃ body, entriesChars entries = body ++ [125] ∧ ∀ b ∈ body, b ≠ 125 := by
  intro entries
  induction entries with
  | nil => exact fun _ => ⟨[], rfl, by simp⟩
  | cons hd tl ih =>
      intro hwf
      obtain ⟨k, v⟩ := hd
      cases tl with
      | nil =>
          refine ⟨entryChars k v ++ [10], ?_, ?_⟩
          · show entryChars k v ++ [10, 125] = entryChars k v ++ [10] ++ [125]
            simp
          · intro b hb
            rcases List.mem_append.mp hb with h | h
            · exact entryChars_no_brace k v (hwf _ (by simp)) b h
            · simp only [List.mem_cons, List.not_mem_nil, or_false] at h
              omega
      | cons e2 rest2 =>
          obtain ⟨body, hbody, hnb⟩ := ih (fun e he => hwf e (by simp [he]))
          refine ⟨entryChars k v ++ 44 :: body, ?_, ?_⟩
          · show entryChars k v ++ 44 :: entriesChars (e2 :: rest2) =
              entryChars k v ++ 44 :: body ++ [125]
            rw [hbody]
            simp
          · intro b hb
            rcases List.mem_append.mp hb with h | h
            · exact entryChars_no_brace k v (hwf _ (by simp)) b h
            · rcases List.mem_cons.mp h with rfl | h2
              · norm_num
              · exact hnb b h2

/-- A nonempty entry block starts with the newline-indent-quote prefix
of its first field. -/
theorem entriesChars_cons_form (k : List Nat) (v : JVal) (tl : List (List Nat × JVal)) :
    ∃ Y, entriesChars ((k, v) :: tl) = 10 :: 32 :: 32 :: 34 :: Y := by
  cases tl with
  | nil =>
      refine ⟨k ++ 34 :: 58 :: 32 :: (renderJVal v ++ [10, 125]), ?_⟩
      show entryChars k v ++ [10, 125] = _
      simp [entryChars]
  | cons e2 r =>
      refine ⟨k ++ 34 :: 58 :: 32 :: (renderJVal v ++ 44 :: entriesChars (e2 :: r)), ?_⟩
      show entryChars k v ++ 44 :: entriesChars (e2 :: r) = _
      simp [entryChars]

/-- The serialised block is at least as long as the number of fields. -/
theorem entriesChars_length_ge :
    ∀ entries : List (List Nat × JVal), entries.length ≤ (entriesChars entries).length := by
  intro entries
  induction entries with
  | nil => simp [entriesChars]
  | cons hd tl ih =>
      obtain ⟨k, v⟩ := hd
      cases tl with
      | nil =>
          show 1 ≤ (entryChars k v ++ [10, 125]).length
          simp
      | cons e2 r =>
          show (e2 :: r).length + 1 ≤ (entryChars k v ++ 44 :: entriesChars (e2 :: r)).length
          have h2 := ih
          simp only [List.length_append, List.length_cons, entryChars,
            List.length_cons] at h2 ⊢
          omega

/-- The model of `json.load` reads back a serialised document. -/
theorem jsonLoad_serialize (entries : List (List Nat × JVal)) (hne : entries ≠ [])
    (hwf : ∀ e ∈ entries, wfEntry e) :
    jsonLoadStateDoc (123 :: entriesChars entries) = some entries := by
  obtain ⟨⟨k, v⟩, tl, rfl⟩ : ∃ hd tl, entries = hd :: tl := by
    cases entries with
    | nil => exact absurd rfl hne
    | cons a b => exact ⟨a, b, rfl⟩
  obtain ⟨Y, hY⟩ := entriesChars_cons_form k v tl
  have hfields := parseFields_round ((k, v) :: tl)
    ((entriesChars ((k, v) :: tl)).length + 1) (by simp)
    (by have := entriesChars_length_ge ((k, v) :: tl); omega) hwf
  have hs1 : skipWs (123 :: entriesChars ((k, v) :: tl)) =
      123 :: entriesChars ((k, v) :: tl) := skipWs_cons_not 123 _ rfl
  have hs2 : skipWs (entriesChars ((k, v) :: tl)) = 34 :: Y := by
    rw [hY, skipWs_cons_ws 10 _ rfl, skipWs_cons_ws 32 _ rfl, skipWs_cons_ws 32 _ rfl,
      skipWs_cons_not 34 _ rfl]
  simp only [jsonLoadStateDoc, hs1, hs2, hfields]
  simp [skipWs]

/-- A lookup finds the field at the head of the dictionary. -/
theorem lookupField_cons_eq (k : List Nat) (v : JVal) (rest : List (List Nat × JVal)) :
    lookupField ((k, v) :: rest) k = some v := by
  unfold lookupField
  rw [List.find?_cons_of_pos _ (by simp)]
  rfl

/-- A lookup passes over a field with a different key. -/
theorem lookupField_cons_ne (k2 k : List Nat) (v : JVal) (rest : List (List Nat × JVal))
    (h : (k2 == k) = false) :
    lookupField ((k2, v) :: rest) k = lookupField rest k := by
  unfold lookupField
  rw [List.find?_cons_of_neg _ (by simp [h])]

/-- `JNum.toRat` of a whole-number literal `n.0`. -/
theorem toRat_simple (n : Nat) : JNum.toRat ⟨false, n, [0]⟩ = n := by
  have h0 : Nat.ofDigits (10 : ℚ) (0 :: []) = 0 := by
    simp [Nat.ofDigits]
  unfold JNum.toRat
  simp [h0]

/-- Applying a state dictionary whose setpoints pass the loop setters'
range checks reproduces that state exactly. -/
theorem applyState_stateEntries (st : GlobalState)
    (hhum : 0 ≤ st.humiditySetpoint.toRat ∧ st.humiditySetpoint.toRat ≤ 100)
    (ho2 : 0 ≤ st.o2Setpoint.toRat ∧ st.o2Setpoint.toRat ≤ 100)
    (hco2 : 0 < st.co2Setpoint.toRat) :
    ControlManager.applyState defaultState (stateEntries st) = st := by
  have l1 : lookupField (stateEntries st) tempKey = some (JVal.num st.tempSetpoint) := by
    rw [stateEntries, lookupField_cons_eq]
  have l2 : lookupField (stateEntries st) humidityKey = some (JVal.num st.humiditySetpoint) := by
    rw [stateEntries, lookupField_cons_ne _ _ _ _ (by decide), lookupField_cons_eq]
  have l3 : lookupField (stateEntries st) o2Key = some (JVal.num st.o2Setpoint) := by
    rw [stateEntries, lookupField_cons_ne _ _ _ _ (by decide), lookupField_cons_ne _ _ _ _ (by decide), lookupField_cons_eq]
  have l4 : lookupField (stateEntries st) co2Key = some (JVal.num st.co2Setpoint) := by
    rw [stateEntries, lookupField_cons_ne _ _ _ _ (by decide), lookupField_cons_ne _ _ _ _ (by decide), lookupField_cons_ne _ _ _ _ (by decide), lookupField_cons_eq]
  have l5 : lookupField (stateEntries st) runningKey = some (JVal.bool st.incubatorRunning) := by
    rw [stateEntries, lookupField_cons_ne _ _ _ _ (by decide), lookupField_cons_ne _ _ _ _ (by decide), lookupField_cons_ne _ _ _ _ (by decide), lookupField_cons_ne _ _ _ _ (by decide), lookupField_cons_eq]
  have l6 : lookupField (stateEntries st) tempEnKey = some (JVal.bool st.temperatureEnabled) := by
    rw [stateEntries, lookupField_cons_ne _ _ _ _ (by decide), lookupField_cons_ne _ _ _ _ (by decide), lookupField_cons_ne _ _ _ _ (by decide), lookupField_cons_ne _ _ _ _ (by decide), lookupField_cons_ne _ _ _ _ (by decide), lookupField_cons_eq]
  have l7 : lookupField (stateEntries st) humEnKey = some (JVal.bool st.humidityEnabled) := by
    rw [stateEntries, lookupField_cons_ne _ _ _ _ (by decide), lookupField_cons_ne _ _ _ _ (by decide), lookupField_cons_ne _ _ _ _ (by decide), lookupField_cons_ne _ _ _ _ (by decide), lookupField_cons_ne _ _ _ _ (by decide), lookupField_cons_ne _ _ _ _ (by decide), lookupField_cons_eq]
  have l8 : lookupField (stateEntries st) o2EnKey = some (JVal.bool st.o2Enabled) := by
    rw [stateEntries, lookupField_cons_ne _ _ _ _ (by decide), lookupField_cons_ne _ _ _ _ (by decide), lookupField_cons_ne _ _ _ _ (by decide), lookupField_cons_ne _ _ _ _ (by decide), lookupField_cons_ne _ _ _ _ (by decide), lookupField_cons_ne _ _ _ _ (by decide), lookupField_cons_ne _ _ _ _ (by decide), lookupField_cons_eq]
  have l9 : lookupField (stateEntries st) co2EnKey = some (JVal.bool st.co2Enabled) := by
    rw [stateEntries, lookupField_cons_ne _ _ _ _ (by decide), lookupField_cons_ne _ _ _ _ (by decide), lookupField_cons_ne _ _ _ _ (by decide), lookupField_cons_ne _ _ _ _ (by decide), lookupField_cons_ne _ _ _ _ (by decide), lookupField_cons_ne _ _ _ _ (by decide), lookupField_cons_ne _ _ _ _ (by decide), lookupField_cons_ne _ _ _ _ (by decide), lookupField_cons_eq]
  have l10 : lookupField (stateEntries st) airKey = some (JVal.bool st.airPumpEnabled) := by
    rw [stateEntries, lookupField_cons_ne _ _ _ _ (by decide), lookupField_cons_ne _ _ _ _ (by decide), lookupField_cons_ne _ _ _ _ (by decide), lookupField_cons_ne _ _ _ _ (by decide), lookupField_cons_ne _ _ _ _ (by decide), lookupField_cons_ne _ _ _ _ (by decide), lookupField_cons_ne _ _ _ _ (by decide), lookupField_cons_ne _ _ _ _ (by decide), lookupField_cons_ne _ _ _ _ (by decide), lookupField_cons_eq]
  unfold ControlManager.applyState
  rw [l1, l2, l3, l4, l5, l6, l7, l8, l9, l10]
  simp only [Option.getD_some, jvalToFloat, jvalTruthy]
  rw [if_pos hhum, if_pos ho2, if_pos hco2]

/-- The defaults satisfy the setters' range checks, so applying the
defaults dictionary yields the defaults. -/
theorem applyState_defaults :
    ControlManager.applyState defaultState (stateEntries defaultState) = defaultState := by
  refine applyState_stateEntries defaultState ?_ ?_ ?_
  · show (0 : ℚ) ≤ JNum.toRat ⟨false, 60, [0]⟩ ∧ JNum.toRat ⟨false, 60, [0]⟩ ≤ 100
    rw [toRat_simple]
    norm_num
  · show (0 : ℚ) ≤ JNum.toRat ⟨false, 5, [0]⟩ ∧ JNum.toRat ⟨false, 5, [0]⟩ ≤ 100
    rw [toRat_simple]
    norm_num
  · show (0 : ℚ) < JNum.toRat ⟨false, 1000, [0]⟩
    rw [toRat_simple]
    norm_num

/-- The fields of any state form well-formed entries once the four
setpoint literals are canonical. -/
theorem stateEntries_wf (st : GlobalState) (hc : st.canonical) :
    ∀ e ∈ stateEntries st, wfEntry e := by
  intro e he
  simp only [stateEntries, List.mem_cons, List.not_mem_nil, or_false] at he
  rcases he with rfl | rfl | rfl | rfl | rfl | rfl | rfl | rfl | rfl | rfl
  · exact ⟨by decide, hc.1⟩
  · exact ⟨by decide, hc.2.1⟩
  · exact ⟨by decide, hc.2.2.1⟩
  · exact ⟨by decide, hc.2.2.2⟩
  · exact ⟨by decide, trivial⟩
  · exact ⟨by decide, trivial⟩
  · exact ⟨by decide, trivial⟩
  · exact ⟨by decide, trivial⟩
  · exact ⟨by decide, trivial⟩
  · exact ⟨by decide, trivial⟩

/-- **C1, counterexample.** The claim says `_save_state` persists the
document atomically by writing a sibling temp file and renaming it into
place, so that a half-written document is never on the state path at
restart. The source writes the serialised document directly to
`app/state.json` (`open(STATE_FILE_PATH, 'w')` + `json.dump`): the save
is not a temp-file-and-rename sequence, and a crash after one byte of
the write leaves the half-written content `"{"` on the state path, which
the restart loader then reads (falling back to the defaults). -/
theorem c1_save_not_temp_rename :
    ¬ atomicTempRenameSave (ControlManager.saveStateOps defaultState) statePath ∧
    contentAfterCrashDuringWrite
      (FsOp.writeFile statePath (serializeState defaultState)) statePath none 1 =
      some ((serializeState defaultState).take 1) ∧
    (serializeState defaultState).take 1 = [123] ∧
    [123] ≠ serializeState defaultState ∧
    ControlManager.loadState (some [123]) = defaultState := by
  refine ⟨?_, ?_, ?_, ?_, ?_⟩
  · intro h
    exact h.1 (FsOp.writeFile statePath (serializeState defaultState))
      (by simp [ControlManager.saveStateOps]) (serializeState defaultState) rfl
  · simp [contentAfterCrashDuringWrite]
  · obtain ⟨Y, hY⟩ := entriesChars_cons_form tempKey (JVal.num defaultState.tempSetpoint)
      (stateEntries defaultState).tail
    rw [show serializeState defaultState =
      123 :: entriesChars (stateEntries defaultState) from rfl]
    rfl
  · intro hcontra
    have hge := entriesChars_length_ge (stateEntries defaultState)
    have h10 : (stateEntries defaultState).length = 10 := rfl
    rw [h10] at hge
    have hlen : (1 : Nat) = (entriesChars (stateEntries defaultState)).length + 1 := by
      have h2 := congrArg List.length hcontra
      simpa [serializeState] using h2
    omega
  · have hnone : jsonLoadStateDoc [123] = none := by rfl
    simp only [ControlManager.loadState, hnone]
    exact applyState_defaults

/-- **C1, amended.** `_save_state` persists the document with a single
truncating write directly to the state path (no temp file, no rename);
still, after a crash at any point during that write, a restart loads
either the defaults (every strictly partial document lacks the closing
brace and fails `json.load`, and a missing file also falls back) or,
when the write completed, exactly the saved state - so the loaded
`GlobalState` is always the last fully-persisted state or the defaults,
even though a half-written document can sit on disk. Stated for states
the supervisor can persist: canonically rendered setpoints with
humidity and O2 in [0, 100] and CO2 positive. -/
theorem c1_state_persistence_amended (st : GlobalState) (hc : st.canonical)
    (hhum : 0 ≤ st.humiditySetpoint.toRat ∧ st.humiditySetpoint.toRat ≤ 100)
    (ho2 : 0 ≤ st.o2Setpoint.toRat ∧ st.o2Setpoint.toRat ≤ 100)
    (hco2 : 0 < st.co2Setpoint.toRat) (k : Nat) :
    ControlManager.saveStateOps st = [FsOp.writeFile statePath (serializeState st)] ∧
    (k < (serializeState st).length →
      ControlManager.loadState (some ((serializeState st).take k)) = defaultState) ∧
    ControlManager.loadState (some (serializeState st)) = st ∧
    ControlManager.loadState none = defaultState := by
  refine ⟨rfl, ?_, ?_, applyState_defaults⟩
  · intro hk
    obtain ⟨body, hbody, hnb⟩ :=
      entriesChars_split (stateEntries st) (stateEntries_wf st hc)
    have hser : serializeState st = (123 :: body) ++ [125] := by
      rw [serializeState, hbody]
      rfl
    have hlen : (serializeState st).length = body.length + 2 := by
      rw [hser]
      simp
    have hnmem : 125 ∉ (serializeState st).take k := by
      intro hmem
      have hk2 : k ≤ (123 :: body).length := by
        simp only [List.length_cons]
        omega
      rw [hser, List.take_append_of_le_length hk2] at hmem
      have hmem2 := List.take_subset k (123 :: body) hmem
      rcases List.mem_cons.mp hmem2 with h | h
      · norm_num at h
      · exact hnb 125 h rfl
    cases hload : jsonLoadStateDoc ((serializeState st).take k) with
    | none =>
        simp only [ControlManager.loadState, hload]
        exact applyState_defaults
    | some fs => exact absurd (jsonLoadStateDoc_hasBrace hload) hnmem
  · have hload : jsonLoadStateDoc (serializeState st) = some (stateEntries st) := by
      rw [serializeState]
      exact jsonLoad_serialize (stateEntries st) (by simp [stateEntries])
        (stateEntries_wf st hc)
    simp only [ControlManager.loadState, hload]
    exact applyState_stateEntries st hhum ho2 hco2

/-- **C1, witness.** Instantiates `c1_state_persistence_amended` at the
default state: loading the empty crash remnant yields the defaults and
loading the complete document yields the saved state. -/
theorem c1_state_persistence_amended_witness :
    ControlManager.loadState (some ((serializeState defaultState).take 0)) = defaultState ∧
    ControlManager.loadState (some (serializeState defaultState)) = defaultState := by
  have h := c1_state_persistence_amended defaultState
    (by unfold GlobalState.canonical JNum.canonical; decide)
    (by show (0 : ℚ) ≤ JNum.toRat ⟨false, 60, [0]⟩ ∧ JNum.toRat ⟨false, 60, [0]⟩ ≤ 100
        rw [toRat_simple]; norm_num)
    (by show (0 : ℚ) ≤ JNum.toRat ⟨false, 5, [0]⟩ ∧ JNum.toRat ⟨false, 5, [0]⟩ ≤ 100
        rw [toRat_simple]; norm_num)
    (by show (0 : ℚ) < JNum.toRat ⟨false, 1000, [0]⟩
        rw [toRat_simple]; norm_num) 0
  exact ⟨h.2.1 (by simp [serializeState]), h.2.2.1⟩
